import Mathlib

/-!
Verification of the disruption decision core of the karpenter fork
(`pkg/controllers/disruption/{types,drift,consolidation_info}.go`,
`pkg/controllers/nodeclaim/lifecycle/indeed_events.go`, and the
`annotateNodeClaimWithNominatedPods` provisioning helper).

The Go code is shallowly embedded: pure functions become Lean functions,
in-place mutation of the disruption-budget map becomes explicit state
passing (the final map is returned), collaborator calls (pod listing,
scheduling simulation, event recorder, kube client `Get`) become explicit
function-valued parameters, and published events / invoked simulations are
returned as explicit lists so that side-effect claims can be stated.
Go `float64` values that the claims exercise only at exact decimal points
(prices, costs) are modelled as `Rat`.
-/

namespace Karpenter

/-- A pod, reduced to the fields and collaborator-computed predicates the
embedded code reads: `Namespace`/`Name`/`UID` metadata, and the results of
`pod.IsReschedulable`, `pod.IsDisruptable`, `pod.IsWaitingEviction`
(external `podutils` predicates, modelled as precomputed booleans). -/
structure Pod where
  namespc : String
  name : String
  uid : String
  isReschedulable : Bool
  isDisruptable : Bool
  isWaitingEviction : Bool
  deriving DecidableEq, Repr

/-- An offering of an instance type (`cloudprovider.Offering`): capacity
type, zone and price, as read by `consolidationMessage`. -/
structure Offering where
  capacityType : String
  zone : String
  price : Rat
  deriving DecidableEq, Repr

/-- An instance-type option carried by a proposed replacement
(`cloudprovider.InstanceType`): its name and offerings. -/
structure InstanceTypeOption where
  name : String
  offerings : List Offering
  deriving DecidableEq, Repr

/-- A replacement node specification (`scheduling.NodeClaim`): the
instance-type options it may use, and the pods nominated onto it
(read by `annotateNodeClaimWithNominatedPods`). -/
structure SchedNodeClaim where
  instanceTypeOptions : List InstanceTypeOption
  pods : List Pod
  deriving DecidableEq, Repr

/-- `disruption.Candidate`: the fields of the Go struct (and of its
embedded `state.StateNode`) that the embedded functions read.
`driftedLastTransitionTime` is
`NodeClaim.StatusConditions().Get(ConditionTypeDrifted).LastTransitionTime`
(a wall-clock instant, modelled as `Int`; `Time.Before` is `<`).
`nodePoolName` is `nodePool.Name` (also `NodePool.Name` in
`consolidationMessage`), `instanceTypeLabel` is
`Labels()[corev1.LabelInstanceTypeStable]`, `nodeName` is `Node.Name`
(= `Name()`), `nodeClaimName` is `NodeClaim.Name`. -/
structure Candidate where
  nodeName : String
  nodeClaimName : String
  nodePoolName : String
  driftedLastTransitionTime : Int
  reschedulablePods : List Pod
  instanceTypeLabel : String
  capacityType : String
  zone : String
  instanceTypeName : Option String
  disruptionCost : Rat
  deriving DecidableEq, Repr

/-- `scheduling.Results`, reduced to what the embedded code consumes:
the proposed replacements (`NewNodeClaims`) and the results of the
`AllNonPendingPodsScheduled()` / `NonPendingPodSchedulingErrors()`
methods (modelled as fields, since the simulation is an external
collaborator). -/
structure Results where
  newNodeClaims : List SchedNodeClaim
  allNonPendingPodsScheduled : Bool
  nonPendingPodSchedulingErrors : List String
  deriving DecidableEq, Repr

/-- The zero value `scheduling.Results{}`. -/
def Results.empty : Results := ⟨[], false, []⟩

/-- `disruption.Command`: candidates selected for disruption plus
replacement node specifications. -/
structure Command where
  candidates : List Candidate
  replacements : List SchedNodeClaim
  deriving DecidableEq, Repr

/-- The zero value `Command{}`. -/
def Command.empty : Command := ⟨[], []⟩

/-- `disruption.Decision` (`"no-op"`, `"replace"`, `"delete"`). -/
inductive Decision where
  | noop
  | replace
  | delete
  deriving DecidableEq, Repr

/-- `Command.Decision()`: the three-way switch on the emptiness of the
candidate and replacement lists (types.go lines 132-141). -/
def Command.Decision (c : Command) : Decision :=
  if c.candidates.length > 0 ∧ c.replacements.length > 0 then .replace
  else if c.candidates.length > 0 ∧ c.replacements.length = 0 then .delete
  else .noop

/-! ## consolidationMessage (consolidation_info.go) -/

/-- Fixed-point rendering of a price with three decimals, the model of
`fmt.Sprintf("%.3f", x)` with the `float64` modelled as `Rat`
(rounding to nearest; the claims only exercise exactly representable
decimal values, where every rounding convention agrees). -/
def fmtF3 (q : Rat) : String :=
  let m : Int := round (q * 1000)
  let sign := if m < 0 then "-" else ""
  let n := m.natAbs
  let ip := n / 1000
  let fp := n % 1000
  let pad := if fp < 10 then "00" else if fp < 100 then "0" else ""
  sign ++ toString ip ++ "." ++ pad ++ toString fp

/-- The piece `fmt.Sprintf(" %s/%s/%s:%.3f ", ito.Name, of.CapacityType(), of.Zone(), of.Price)`
appended per offering in `consolidationMessage`. -/
def offeringPiece (ito : InstanceTypeOption) (o : Offering) : String :=
  " " ++ ito.name ++ "/" ++ o.capacityType ++ "/" ++ o.zone ++ ":" ++ fmtF3 o.price ++ " "

/-- The text appended to the message for one replacement `NodeClaim`
(the `for _, nc := range results.NewNodeClaims` loop body: the bracket
delimiters around the concatenated offering pieces). -/
def nodeClaimPiece (nc : SchedNodeClaim) : String :=
  " with offerings: ["
    ++ String.join (nc.instanceTypeOptions.map fun ito =>
        String.join (ito.offerings.map (offeringPiece ito)))
    ++ " ]"

/-- The first loop of `consolidationMessage`: the candidates rendered as
`Node pool/instance-type/capacity-type/name`, comma-separated (the
`len(msg) > 0` check skips the separator before the first entry). -/
def candidatesPart (candidates : List Candidate) : String :=
  candidates.foldl
    (fun msg c =>
      (if msg.length > 0 then msg ++ ", " else msg)
        ++ "Node " ++ c.nodePoolName ++ "/" ++ c.instanceTypeLabel ++ "/"
        ++ c.capacityType ++ "/" ++ c.nodeName)
    ""

/-- `consolidationMessage(candidates, results, candidatePrice)`: the
candidate list rendered comma-separated, then either the total-price /
offerings text (when there are replacements) or the removal note.
The Go `msg +=` accumulation loops are rendered as folds / joined maps of
the per-iteration appended pieces. -/
def consolidationMessage (candidates : List Candidate) (results : Results)
    (candidatePrice : Rat) : String :=
  let msg := candidatesPart candidates
  if results.newNodeClaims.length > 0 then
    msg ++ " with a total price of " ++ fmtF3 candidatePrice ++ " is being replaced"
      ++ String.join (results.newNodeClaims.map nodeClaimPiece)
  else
    msg ++ " is underutilized and will be removed without replacement"

/-! ## v1.NodeClaim model, nominated-pods annotation, insufficient-capacity events -/

/-- A `v1.NodeClaimRequirement` (`Spec.Requirements` entry): a key and values. -/
structure Requirement where
  key : String
  values : List String
  deriving DecidableEq, Repr

/-- `v1.NodeClaim`, reduced to the fields the embedded code reads.
`annotations` is the Go `map[string]string`: `none` models a nil map,
`some m` a map with presence-aware lookup `m`. -/
structure NodeClaim where
  name : String
  uid : String
  annotations : Option (String → Option String)
  requirements : List Requirement

/-- Value-lookup in the annotations map, as Go does it: a missing key (or a
nil map) reads as the empty string. -/
def NodeClaim.annGet (nc : NodeClaim) (k : String) : String :=
  match nc.annotations with
  | none => ""
  | some m => (m k).getD ""

/-- `annotateNodeClaimWithNominatedPods` (provisioning helper): build the
comma-terminated `namespace/name` list of the scheduling NodeClaim's pods
(a `strings.Builder` loop writing `ns`, `"/"`, `name`, `","` per pod),
truncate to 4096 (Go slices bytes; modelled at character granularity),
copy the annotation map and set the nominated-pods key on the copy. -/
def annotateNodeClaimWithNominatedPods (n : SchedNodeClaim) (nodeClaim : NodeClaim) :
    NodeClaim :=
  let nominatedPods : String :=
    String.join (n.pods.map fun pod => pod.namespc ++ "/" ++ pod.name ++ ",")
  let nominatedPods : String :=
    if nominatedPods.length > 4096 then String.mk (nominatedPods.data.take 4096)
    else nominatedPods
  let annotations : String → Option String := fun k =>
    if k = "karpenter.indeed.com/nominated-pods" then some nominatedPods
    else match nodeClaim.annotations with
      | some m => m k
      | none => none
  { nodeClaim with annotations := some annotations }

/-- The parties an `events.Event` can involve here. -/
inductive InvolvedObject where
  | nodeClaim (nc : NodeClaim)
  | pod (p : Pod)

/-- `events.Event` as built by `InsufficientCapacityErrorEvents`. -/
structure Event where
  involvedObject : InvolvedObject
  type : String
  reason : String
  message : String
  dedupeValues : List String

/-- Outcome of the collaborator `kubeClient.Get` for a pod: success, a
not-found error, or any other error. -/
inductive GetPodResult where
  | ok (p : Pod)
  | notFound
  | otherError (msg : String)
  deriving Repr

/-- `InsufficientCapacityErrorEvents` (indeed_events.go): one warning event
for the NodeClaim carrying the truncated error message, then one event per
well-formed `namespace/name` entry of the nominated-pods annotation whose
pod the client can fetch.  `getPod` models `kubeClient.Get`
(namespace → name → outcome); `truncateMessage` is the repo's message
truncation helper (not among the provided sources; every claim proved here
holds for an arbitrary such function). -/
def InsufficientCapacityErrorEvents (getPod : String → String → GetPodResult)
    (truncateMessage : String → String) (nodeClaim : NodeClaim) (err : String) :
    List Event :=
  let errMsg := truncateMessage err
  let evnts : List Event :=
    [{ involvedObject := .nodeClaim nodeClaim
       type := "Warning"
       reason := "InsufficientCapacityError"
       message := "NodeClaim " ++ nodeClaim.name ++ " event: " ++ errMsg
       dedupeValues := [nodeClaim.uid] }]
  if nodeClaim.annotations.isSome ∧ nodeClaim.annGet "karpenter.indeed.com/nominated-pods" ≠ "" then
    let awsZone :=
      match nodeClaim.requirements.find? fun r =>
          r.key == "topology.kubernetes.io/zone" && !r.values.isEmpty with
      | some r => r.values.headD ""
      | none => "any az"
    let instanceTypes :=
      match nodeClaim.requirements.find? fun r =>
          r.key == "node.kubernetes.io/instance-type" && !r.values.isEmpty with
      | some r => String.intercalate "," r.values
      | none => ""
    let pods := (nodeClaim.annGet "karpenter.indeed.com/nominated-pods").splitOn ","
    evnts ++ pods.filterMap fun podAndNS =>
      let split := podAndNS.splitOn "/"
      if split.length = 2 then
        match getPod (split.getD 0 "").trim (split.getD 1 "").trim with
        | .ok p =>
          some { involvedObject := .pod p
                 type := "Warning"
                 reason := "InsufficientCapacityError"
                 message := "Pod could not schedule " ++ instanceTypes ++ " in "
                   ++ awsZone ++ ": " ++ errMsg
                 dedupeValues := ["InsufficientCapacityError" ++ p.uid] }
        | .notFound => none
        | .otherError _ => none
      else none
  else evnts

/-! ## Candidate construction (types.go NewCandidate) -/

/-- The two disruption classes (types.go lines 44-45). -/
def GracefulDisruptionClass : String := "graceful"

/-- The `eventual` disruption class constant. -/
def EventualDisruptionClass : String := "eventual"

/-- Failure of `StateNode.ValidatePodsDisruptable`: either the dedicated
pod-blocking-eviction error kind or any other error. -/
inductive PodsErr where
  | podBlockEviction (msg : String)
  | other (msg : String)
  deriving DecidableEq, Repr

/-- The message carried by a pods-validation failure. -/
def PodsErr.message : PodsErr → String
  | .podBlockEviction m => m
  | .other m => m

/-- `state.IgnorePodBlockEvictionError`: drops the error when it is a
pod-blocking-eviction error, keeps any other error. -/
def IgnorePodBlockEvictionError : PodsErr → Option PodsErr
  | .podBlockEviction _ => none
  | .other m => some (.other m)

/-- The failure taxonomy of `NewCandidate`. -/
inductive CandErr where
  | notDisruptable (msg : String)
  | alreadyDisrupting
  | nodePoolNotFound (name : String)
  | podsNotDisruptable (e : PodsErr)
  deriving DecidableEq, Repr

/-- `v1.NodePool`, reduced to its name. -/
structure NodePool where
  name : String
  deriving DecidableEq, Repr

/-- `state.StateNode` plus the outcomes of the collaborator calls
`ValidateNodeDisruptable` / `ValidatePodsDisruptable` made against it
(modelled as precomputed fields, since both are external to the provided
sources).  `terminationGracePeriod` is `NodeClaim.Spec.TerminationGracePeriod`. -/
structure StateNode where
  nodeName : String
  nodeClaimName : String
  hasNodeClaim : Bool
  terminationGracePeriod : Option Int
  providerID : String
  nodePoolLabel : String
  instanceTypeLabel : String
  capacityTypeLabel : String
  zoneLabel : String
  driftedLastTransitionTime : Int
  validateNodeDisruptableErr : Option String
  validatePodsPods : List Pod
  validatePodsErr : Option PodsErr
  utilization : Rat

/-- A `disruptionevents.Blocked` notification published for a node. -/
structure BlockedEvent where
  nodeName : String
  nodeClaimName : String
  reason : String
  deriving DecidableEq, Repr

/-- Result of `NewCandidate`: the Go `(*Candidate, error)` pair plus the
blocked notifications published on the way (side effect made explicit). -/
structure NewCandidateResult where
  candidate : Option Candidate
  err : Option CandErr
  events : List BlockedEvent

/-- `NewCandidate` (types.go lines 71-117).  Collaborators are parameters:
`queueHasAny` is the orchestration queue membership test, `nodePoolMap` and
`nodePoolToInstanceTypesMap` the lookup maps (an instance type is modelled
by its name), `reschedulingCost`/`lifetimeRemaining` the external cost
utilities (`float64` modelled as `Rat`).  The deep copy of the node state
is value semantics here.  `pretty.Sentence` formatting of event text is
elided (events carry the raw error message). -/
def NewCandidate (queueHasAny : String → Bool)
    (nodePoolMap : String → Option NodePool)
    (nodePoolToInstanceTypesMap : String → Option (String → Option String))
    (reschedulingCost : List Pod → Rat) (lifetimeRemaining : NodePool → Rat)
    (node : StateNode) (disruptionClass : String) : NewCandidateResult :=
  match node.validateNodeDisruptableErr with
  | some msg =>
    { candidate := none, err := some (.notDisruptable msg)
      events := if node.hasNodeClaim then [⟨node.nodeName, node.nodeClaimName, msg⟩] else [] }
  | none =>
    if queueHasAny node.providerID then
      { candidate := none, err := some .alreadyDisrupting, events := [] }
    else
      let nodePoolName := node.nodePoolLabel
      match nodePoolMap nodePoolName, nodePoolToInstanceTypesMap nodePoolName with
      | some nodePool, some instanceTypeMap =>
        let instanceType := instanceTypeMap node.instanceTypeLabel
        let pods := node.validatePodsPods
        let mkCandidate : NewCandidateResult :=
          { candidate := some
              { nodeName := node.nodeName
                nodeClaimName := node.nodeClaimName
                nodePoolName := nodePool.name
                driftedLastTransitionTime := node.driftedLastTransitionTime
                reschedulablePods := pods.filter (·.isReschedulable)
                instanceTypeLabel := node.instanceTypeLabel
                capacityType := node.capacityTypeLabel
                zone := node.zoneLabel
                instanceTypeName := instanceType
                disruptionCost :=
                  reschedulingCost pods * lifetimeRemaining nodePool * node.utilization }
            err := none, events := [] }
        match node.validatePodsErr with
        | none => mkCandidate
        | some e =>
          let eventualDisruptionCandidate :=
            node.terminationGracePeriod.isSome ∧ disruptionClass = EventualDisruptionClass
          match if eventualDisruptionCandidate then IgnorePodBlockEvictionError e
            else some e with
          | some _ =>
            { candidate := none, err := some (.podsNotDisruptable e)
              events := [⟨node.nodeName, node.nodeClaimName, e.message⟩] }
          | none => mkCandidate
      | _, _ =>
        { candidate := none, err := some (.nodePoolNotFound nodePoolName)
          events := [⟨node.nodeName, node.nodeClaimName,
            "NodePool " ++ nodePoolName ++ " not found"⟩] }

/-! ## Go standard-library sort (`sort.Slice` / `sort.SliceStable`)

`Drift.ComputeCommand` calls `sort.Slice` (pattern-defeating quicksort,
not stable) and then `sort.SliceStable` (block insertion sort merged with
SymMerge).  Both are embedded here from Go's `src/sort/zsortfunc.go`
(go 1.19+): the slice being sorted is a `List α`, `data.Less i j` is
`lt l[i] l[j]` on the current list, and `data.Swap` is `gswap`.  Loops of
the source become recursions; where a Go loop's iteration count is bounded
by the range it walks, the recursion carries an explicit bound (`fuel`)
chosen at each call site to exceed that iteration count, so the embedded
function never takes the out-of-fuel branch on the calls the source makes. -/

section GoSort

variable {α : Type} (lt : α → α → Bool) (d : α)

/-- Read index `i` of the slice (`d` is returned out of bounds; the source
never reads out of bounds). -/
def gread (l : List α) (i : Nat) : α := l.getD i d

/-- `data.Swap(i, j)`.  Out-of-bounds indices leave the list unchanged
(the source never swaps out of bounds: Go would panic). -/
def gswap (l : List α) (i j : Nat) : List α :=
  if i < l.length ∧ j < l.length then (l.set i (l.getD j d)).set j (l.getD i d) else l

/-- `insertionSort_func` inner loop: bubble the element at `j` left while
it is strictly less than its left neighbour and `j > a`.  All loops of
this embedding carry an iteration bound as their first `Nat` argument
(the source loop runs `j - a ≤ j` times; callers pass `j + 1`), so the
recursion is structural and the bound is never hit on the source's calls. -/
def insertionSortInner (a : Nat) : Nat → List α → Nat → List α
  | 0, l, _ => l
  | fuel + 1, l, j =>
    if a < j ∧ lt (gread d l j) (gread d l (j - 1)) then
      insertionSortInner a fuel (gswap d l j (j - 1)) (j - 1)
    else l

/-- `insertionSort_func` outer loop over `i = a+1 .. b-1`. -/
def insertionSortOuter (a b : Nat) : Nat → List α → Nat → List α
  | 0, l, _ => l
  | fuel + 1, l, i =>
    if i < b then insertionSortOuter a b fuel (insertionSortInner lt d a (i + 1) l i) (i + 1)
    else l

/-- `insertionSort_func(data, a, b)`. -/
def insertionSortFunc (a b : Nat) (l : List α) : List α :=
  insertionSortOuter lt d a b (b + 1) l (a + 1)

/-- `siftDown_func(data, lo, hi, first)`: sift the root down the max-heap
laid out on `[first, first+hi)`.  The child index at least doubles per
iteration, so `hi + 1` bounds the iterations. -/
def siftDownFunc (hi first : Nat) : Nat → List α → Nat → List α
  | 0, l, _ => l
  | fuel + 1, l, root =>
    if 2 * root + 1 < hi then
      let child :=
        if 2 * root + 2 < hi ∧
            lt (gread d l (first + (2 * root + 1))) (gread d l (first + (2 * root + 2))) then
          2 * root + 2
        else 2 * root + 1
      if ¬ lt (gread d l (first + root)) (gread d l (first + child)) then l
      else siftDownFunc hi first fuel (gswap d l (first + root) (first + child)) child
    else l

/-- `heapSort_func` build phase: `for i := (hi-1)/2; i >= 0; i--`
(`cnt` counts the remaining iterations; `i = cnt - 1`). -/
def heapSortBuild (a hi : Nat) (l : List α) : Nat → List α
  | 0 => l
  | cnt + 1 => heapSortBuild a hi (siftDownFunc lt d hi a (hi + 1) l cnt) cnt

/-- `heapSort_func` pop phase: `for i := hi-1; i >= 0; i--`
(`cnt = i + 1`). -/
def heapSortPop (first : Nat) (l : List α) : Nat → List α
  | 0 => l
  | cnt + 1 =>
    heapSortPop first (siftDownFunc lt d cnt first (cnt + 1) (gswap d l first (first + cnt)) 0) cnt

/-- `heapSort_func(data, a, b)`. -/
def heapSortFunc (a b : Nat) (l : List α) : List α :=
  let hi := b - a
  heapSortPop lt d a (heapSortBuild lt d a hi l ((hi - 1) / 2 + 1)) hi

/-- `reverseRange_func(data, a, b)`. -/
def reverseRangeLoop : Nat → List α → Nat → Nat → List α
  | 0, l, _, _ => l
  | fuel + 1, l, i, j =>
    if i < j then reverseRangeLoop fuel (gswap d l i j) (i + 1) (j - 1) else l

/-- `reverseRange_func` entry. -/
def reverseRangeFunc (a b : Nat) (l : List α) : List α :=
  reverseRangeLoop d (b + 1) l a (b - 1)

/-- One step of the `xorshift` generator over `uint64`. -/
def xorshiftNext (r : Nat) : Nat :=
  let r := (r ^^^ (r <<< 13)) % 2 ^ 64
  let r := r ^^^ (r >>> 7)
  (r ^^^ (r <<< 17)) % 2 ^ 64

/-- `bits.Len(uint(n))`, via a structurally recursive halving. -/
def bitsLenAux : Nat → Nat → Nat
  | 0, _ => 0
  | fuel + 1, n => if n = 0 then 0 else bitsLenAux fuel (n / 2) + 1

/-- `bits.Len(uint(n))`. -/
def bitsLen (n : Nat) : Nat := bitsLenAux n n

/-- `nextPowerOfTwo(length)`. -/
def nextPowerOfTwo (length : Nat) : Nat := 1 <<< bitsLen length

/-- `breakPatterns_func(data, a, b)`: randomize three elements around the
prospective pivot (only for ranges of length ≥ 8). -/
def breakPatternsFunc (a b : Nat) (l : List α) : List α :=
  let length := b - a
  if length ≥ 8 then
    let modulus := nextPowerOfTwo length
    let idx := a + (length / 4) * 2 - 1
    let step := fun (st : List α × Nat) (i : Nat) =>
      let random := xorshiftNext st.2
      let other := random % modulus
      let other := if other ≥ length then other - length else other
      (gswap d st.1 (idx - 1 + i) (a + other), random)
    (step (step (step (l, length) 0) 1) 2).1
  else l

/-- `order2_func`: order two indices by the elements they hold, counting
an inversion in `swaps`. -/
def order2Func (l : List α) (a b swaps : Nat) : Nat × Nat × Nat :=
  if lt (gread d l b) (gread d l a) then (b, a, swaps + 1) else (a, b, swaps)

/-- `median_func`: index of the median of the three elements. -/
def medianFunc (l : List α) (a b c swaps : Nat) : Nat × Nat :=
  let (a, b, swaps) := order2Func lt d l a b swaps
  let (b, _, swaps) := order2Func lt d l b c swaps
  let (_, b, swaps) := order2Func lt d l a b swaps
  (b, swaps)

/-- `medianAdjacent_func`: median of `a-1, a, a+1`. -/
def medianAdjacentFunc (l : List α) (a swaps : Nat) : Nat × Nat :=
  medianFunc lt d l (a - 1) a (a + 1) swaps

/-- The `sortedHint` returned by `choosePivot_func`. -/
inductive SortedHint where
  | increasing
  | decreasing
  | unknown
  deriving DecidableEq, Repr

/-- `choosePivot_func(data, a, b)`: static pivot below length 8, median of
three probes below 50, Tukey ninther beyond. -/
def choosePivotFunc (l : List α) (a b : Nat) : Nat × SortedHint :=
  let length := b - a
  let i := a + length / 4 * 1
  let j := a + length / 4 * 2
  let k := a + length / 4 * 3
  let (j, swaps) :=
    if length ≥ 8 then
      let (i, j, k, swaps) :=
        if length ≥ 50 then
          let (i, s) := medianAdjacentFunc lt d l i 0
          let (j, s) := medianAdjacentFunc lt d l j s
          let (k, s) := medianAdjacentFunc lt d l k s
          (i, j, k, s)
        else (i, j, k, 0)
      medianFunc lt d l i j k swaps
    else (j, 0)
  if swaps = 0 then (j, .increasing)
  else if swaps = 12 then (j, .decreasing)
  else (j, .unknown)

/-- `partialInsertionSort_func` forward scan: advance `i` while the
adjacent pair `i-1, i` is not out of order. -/
def pisScan (b : Nat) (l : List α) : Nat → Nat → Nat
  | 0, i => i
  | fuel + 1, i =>
    if i < b then
      if ¬ lt (gread d l i) (gread d l (i - 1)) then pisScan b l fuel (i + 1) else i
    else i

/-- `partialInsertionSort_func` left-shift loop
(`for j := i-1; j >= 1; j--`). -/
def pisShiftLeft : Nat → List α → Nat → List α
  | 0, l, _ => l
  | fuel + 1, l, j =>
    if 1 ≤ j then
      if lt (gread d l j) (gread d l (j - 1)) then pisShiftLeft fuel (gswap d l j (j - 1)) (j - 1)
      else l
    else l

/-- `partialInsertionSort_func` right-shift loop
(`for j := i+1; j < b; j++`). -/
def pisShiftRight (b : Nat) : Nat → List α → Nat → List α
  | 0, l, _ => l
  | fuel + 1, l, j =>
    if j < b then
      if lt (gread d l j) (gread d l (j - 1)) then pisShiftRight b fuel (gswap d l j (j - 1)) (j + 1)
      else l
    else l

/-- `partialInsertionSort_func` main loop: at most `maxSteps = 5` adjacent
out-of-order pairs are repaired; on ranges shorter than
`shortestShifting = 50` no element is shifted. -/
def partialInsertionSortSteps (a b : Nat) (l : List α) (i : Nat) : Nat → Bool × List α
  | 0 => (false, l)
  | steps + 1 =>
    let i := pisScan lt d b l (b + 1) i
    if i = b then (true, l)
    else if b - a < 50 then (false, l)
    else
      let l := gswap d l i (i - 1)
      let l := if i - a ≥ 2 then pisShiftLeft lt d i l (i - 1) else l
      let l := if b - i ≥ 2 then pisShiftRight lt d b (b + 1) l (i + 1) else l
      partialInsertionSortSteps a b l i steps

/-- `partialInsertionSort_func(data, a, b)`. -/
def partialInsertionSortFunc (a b : Nat) (l : List α) : Bool × List α :=
  partialInsertionSortSteps lt d a b l (a + 1) 5

/-- `partition_func` upward scan: `for i <= j && data.Less(i, a)`. -/
def partScanUp (l : List α) (a j : Nat) : Nat → Nat → Nat
  | 0, i => i
  | fuel + 1, i =>
    if i ≤ j ∧ lt (gread d l i) (gread d l a) then partScanUp l a j fuel (i + 1) else i

/-- `partition_func` downward scan: `for i <= j && !data.Less(j, a)`
(`fuel` bounds the iterations; callers pass `j + 1`, enough since the
source only scans down over positive indices). -/
def partScanDown (l : List α) (a i : Nat) : Nat → Nat → Nat
  | 0, j => j
  | fuel + 1, j =>
    if i ≤ j ∧ ¬ lt (gread d l j) (gread d l a) then partScanDown l a i fuel (j - 1)
    else j

/-- `partition_func` exchange loop. -/
def partitionLoop (a : Nat) : Nat → List α → Nat → Nat → List α × Nat × Nat
  | 0, l, i, j => (l, i, j)
  | fuel + 1, l, i, j =>
    let i := partScanUp lt d l a j (j + 2) i
    let j := partScanDown lt d l a i (j + 1) j
    if i > j then (l, i, j)
    else partitionLoop a fuel (gswap d l i j) (i + 1) (j - 1)

/-- `partition_func(data, a, b, pivot)`: Hoare partition around the pivot
moved to index `a`; returns the list, the pivot's final position, and
whether the range was already partitioned. -/
def partitionFunc (a b piv : Nat) (l : List α) : List α × Nat × Bool :=
  let l := gswap d l a piv
  let i := partScanUp lt d l a (b - 1) (b + 1) (a + 1)
  let j := partScanDown lt d l a i ((b - 1) + 1) (b - 1)
  if i > j then (gswap d l j a, j, true)
  else
    let l := gswap d l i j
    let plr := partitionLoop lt d a b l (i + 1) (j - 1)
    (gswap d plr.1 plr.2.2 a, plr.2.2, false)

/-- `partitionEqual_func` upward scan: `for i <= j && !data.Less(a, i)`. -/
def peScanUp (l : List α) (a j : Nat) : Nat → Nat → Nat
  | 0, i => i
  | fuel + 1, i =>
    if i ≤ j ∧ ¬ lt (gread d l a) (gread d l i) then peScanUp l a j fuel (i + 1) else i

/-- `partitionEqual_func` downward scan: `for i <= j && data.Less(a, j)`. -/
def peScanDown (l : List α) (a i : Nat) : Nat → Nat → Nat
  | 0, j => j
  | fuel + 1, j =>
    if i ≤ j ∧ lt (gread d l a) (gread d l j) then peScanDown l a i fuel (j - 1)
    else j

/-- `partitionEqual_func` exchange loop. -/
def partitionEqualLoop (a : Nat) : Nat → List α → Nat → Nat → List α × Nat
  | 0, l, i, _ => (l, i)
  | fuel + 1, l, i, j =>
    let i := peScanUp lt d l a j (j + 2) i
    let j := peScanDown lt d l a i (j + 1) j
    if i > j then (l, i)
    else partitionEqualLoop a fuel (gswap d l i j) (i + 1) (j - 1)

/-- `partitionEqual_func(data, a, b, pivot)`: move elements equal to the
pivot to the front; returns the list and the first index past them. -/
def partitionEqualFunc (a b piv : Nat) (l : List α) : List α × Nat :=
  let l := gswap d l a piv
  partitionEqualLoop lt d a b l (a + 1) (b - 1)

/-- `pdqsort_func` stage: break patterns and decrement the limit when the
last partitioning was imbalanced (`if !wasBalanced { breakPatterns; limit-- }`). -/
def pdqBP (wasBalanced : Bool) (a b : Nat) (l : List α) (limit : Nat) : List α × Nat :=
  if ¬ wasBalanced then (breakPatternsFunc d a b l, limit - 1) else (l, limit)

/-- `pdqsort_func` stage: on a decreasing hint, reverse the range and
mirror the pivot index, turning the hint increasing. -/
def pdqRV (a b : Nat) (l : List α) (ph : Nat × SortedHint) : List α × Nat × SortedHint :=
  if ph.2 = SortedHint.decreasing then
    (reverseRangeFunc d a b l, (b - 1) - (ph.1 - a), SortedHint.increasing)
  else (l, ph.1, ph.2)

/-- `pdqsort_func` stage: try `partialInsertionSort` when the slice is
likely already sorted. -/
def pdqPIS (wasBalanced wasPartitioned : Bool) (hint : SortedHint) (a b : Nat)
    (l : List α) : Bool × List α :=
  if wasBalanced ∧ wasPartitioned ∧ hint = SortedHint.increasing then
    partialInsertionSortFunc lt d a b l
  else (false, l)

/-- `pdqsort_func(data, a, b, limit)`: the main loop.  `fuel` bounds the
loop iterations: each iteration shrinks `b - a` by at least one, so the
`b - a + 1` supplied at entry (and the shrinking ranges of the recursive
calls) never exhaust it. -/
def pdqsortLoop : Nat → List α → Nat → Nat → Nat → Bool → Bool → List α
  | 0, l, _, _, _, _, _ => l
  | fuel + 1, l, a, b, limit, wasBalanced, wasPartitioned =>
    let length := b - a
    if length ≤ 12 then insertionSortFunc lt d a b l
    else if limit = 0 then heapSortFunc lt d a b l
    else
      let bp := pdqBP d wasBalanced a b l limit
      let limit1 := bp.2
      let ph := choosePivotFunc lt d bp.1 a b
      let rv := pdqRV d a b bp.1 ph
      let pivot := rv.2.1
      let pis := pdqPIS lt d wasBalanced wasPartitioned rv.2.2 a b rv.1
      let l3 := pis.2
      if pis.1 then l3
      else if 0 < a ∧ ¬ lt (gread d l3 (a - 1)) (gread d l3 pivot) then
        let pe := partitionEqualFunc lt d a b pivot l3
        pdqsortLoop fuel pe.1 pe.2 b limit1 wasBalanced wasPartitioned
      else
        let pr := partitionFunc lt d a b pivot l3
        let mid := pr.2.1
        let wasPartitioned1 := pr.2.2
        let leftLen := mid - a
        let rightLen := b - mid
        let balanceThreshold := length / 8
        let wasBalanced1 := decide (leftLen ≥ balanceThreshold ∧ rightLen ≥ balanceThreshold)
        if leftLen < rightLen then
          pdqsortLoop fuel (pdqsortLoop fuel pr.1 a mid limit1 true true)
            (mid + 1) b limit1 wasBalanced1 wasPartitioned1
        else
          pdqsortLoop fuel (pdqsortLoop fuel pr.1 (mid + 1) b limit1 true true)
            a mid limit1 wasBalanced1 wasPartitioned1

/-- `pdqsort_func` entry. -/
def pdqsortFunc (l : List α) (a b limit : Nat) : List α :=
  pdqsortLoop lt d (b - a + 1) l a b limit true true

/-- `sort.Slice(x, less)`: pdqsort with depth limit `bits.Len(uint(n))`.
Not guaranteed stable. -/
def sortSliceGo (l : List α) : List α :=
  pdqsortFunc lt d l 0 l.length (bitsLen l.length)

/-- `symMerge_func` first binary search (`m-a == 1` case): lowest
`i ∈ [m, b]` with `data[i] >= data[a]`. -/
def symSearch1 (l : List α) (a : Nat) : Nat → Nat → Nat → Nat
  | 0, i, _ => i
  | fuel + 1, i, j =>
    if i < j then
      let h := (i + j) / 2
      if lt (gread d l h) (gread d l a) then symSearch1 l a fuel (h + 1) j
      else symSearch1 l a fuel i h
    else i

/-- `symMerge_func` second binary search (`b-m == 1` case): lowest
`i ∈ [a, m]` with `data[i] > data[m]`. -/
def symSearch2 (l : List α) (m : Nat) : Nat → Nat → Nat → Nat
  | 0, i, _ => i
  | fuel + 1, i, j =>
    if i < j then
      let h := (i + j) / 2
      if ¬ lt (gread d l m) (gread d l h) then symSearch2 l m fuel (h + 1) j
      else symSearch2 l m fuel i h
    else i

/-- `symMerge_func` symmetric binary search for the rotation point. -/
def symSearch3 (l : List α) (p : Nat) : Nat → Nat → Nat → Nat
  | 0, start, _ => start
  | fuel + 1, start, r =>
    if start < r then
      let c := (start + r) / 2
      if ¬ lt (gread d l (p - c)) (gread d l c) then symSearch3 l p fuel (c + 1) r
      else symSearch3 l p fuel start c
    else start

/-- Shift an element up by adjacent swaps: `for k := k0; k < stop; k++`. -/
def shiftRangeUp (stop : Nat) : Nat → List α → Nat → List α
  | 0, l, _ => l
  | fuel + 1, l, k =>
    if k < stop then shiftRangeUp stop fuel (gswap d l k (k + 1)) (k + 1) else l

/-- Shift an element down by adjacent swaps: `for k := k0; k > stop; k--`. -/
def shiftRangeDown (stop : Nat) : Nat → List α → Nat → List α
  | 0, l, _ => l
  | fuel + 1, l, k =>
    if stop < k then shiftRangeDown stop fuel (gswap d l k (k - 1)) (k - 1) else l

/-- `swapRange_func(data, a, b, n)`. -/
def swapRangeLoop (a b : Nat) : Nat → Nat → List α → List α
  | _, 0, l => l
  | i, n + 1, l => swapRangeLoop a b (i + 1) n (gswap d l (a + i) (b + i))

/-- `swapRange_func` entry. -/
def swapRangeFunc (a b n : Nat) (l : List α) : List α :=
  swapRangeLoop d a b 0 n l

/-- `rotate_func` main loop (gcd-style block swapping). -/
def rotateLoop (m : Nat) : Nat → List α → Nat → Nat → List α
  | 0, l, _, _ => l
  | fuel + 1, l, i, j =>
    if i ≠ j then
      if i > j then rotateLoop m fuel (swapRangeFunc d (m - i) m j l) (i - j) j
      else rotateLoop m fuel (swapRangeFunc d (m - i) (m + j - i) i l) i (j - i)
    else swapRangeFunc d (m - i) m i l

/-- `rotate_func(data, a, m, b)`. -/
def rotateFunc (a m b : Nat) (l : List α) : List α :=
  rotateLoop d m (b - a + 1) l (m - a) (b - m)

/-- `symMerge_func(data, a, m, b)`: stable in-place merge of the sorted
ranges `[a, m)` and `[m, b)`.  `fuel = b - a + 1` never exhausts since the
recursive calls merge strictly shorter ranges. -/
def symMergeFunc : Nat → List α → Nat → Nat → Nat → List α
  | 0, l, _, _, _ => l
  | fuel + 1, l, a, m, b =>
    if m - a = 1 then
      let i := symSearch1 lt d l a (b - m + 1) m b
      shiftRangeUp d (i - 1) (b + 1) l a
    else if b - m = 1 then
      let i := symSearch2 lt d l m (m - a + 1) a m
      shiftRangeDown d i (m + 1) l m
    else
      let mid := (a + b) / 2
      let n := mid + m
      let sr := if m > mid then (n - b, mid) else (a, m)
      let r := sr.2
      let p := n - 1
      let start := symSearch3 lt d l p (r - sr.1 + 1) sr.1 r
      let stop := n - start
      let l := if start < m ∧ m < stop then rotateFunc d start m stop l else l
      let l := if a < start ∧ start < mid then symMergeFunc fuel l a start mid else l
      if mid < stop ∧ stop < b then symMergeFunc fuel l mid stop b else l

/-- `stable_func` first phase: insertion sort on blocks of 20, then the
tail block. -/
def stableInsertBlocks (n : Nat) : Nat → List α → Nat → Nat → List α
  | 0, l, _, _ => l
  | fuel + 1, l, a, b =>
    if b ≤ n then stableInsertBlocks n fuel (insertionSortFunc lt d a b l) b (b + 20)
    else insertionSortFunc lt d a n l

/-- `stable_func` merge pass at the current block size. -/
def symMergeBlocks (n bs : Nat) : Nat → List α → Nat → Nat → List α
  | 0, l, _, _ => l
  | fuel + 1, l, a, b =>
    if b ≤ n then
      symMergeBlocks n bs fuel (symMergeFunc lt d (b - a + 1) l a (a + bs) b) b (b + 2 * bs)
    else if a + bs < n then symMergeFunc lt d (n - a + 1) l a (a + bs) n
    else l

/-- `stable_func` doubling loop over block sizes. -/
def stableOuter (n : Nat) : Nat → List α → Nat → List α
  | 0, l, _ => l
  | fuel + 1, l, blockSize =>
    if blockSize < n then
      stableOuter n fuel (symMergeBlocks lt d n blockSize (n + 2) l 0 (2 * blockSize))
        (2 * blockSize)
    else l

/-- `stable_func(data, n)`. -/
def stableFunc (l : List α) (n : Nat) : List α :=
  stableOuter lt d n (n + 1) (stableInsertBlocks lt d n (n + 2) l 0 20) 20

/-- `sort.SliceStable(x, less)`. -/
def sortSliceStableGo (l : List α) : List α :=
  stableFunc lt d l l.length

end GoSort

/-! ### A list-level rendering of the insertion sort

For lists of at most `maxInsertion = 12` elements `pdqsort_func` is just
`insertionSort_func`.  To reason about its order and stability we relate
it to a structurally recursive insertion sort on lists: each element is
inserted into the sorted prefix before the first strictly greater
element — hence after any equal element, exactly like the Go inner loop,
which stops as soon as `data.Less(j, j-1)` fails. -/

section InsertionList

variable {α : Type} (lt : α → α → Bool)

/-- Insert `x` before the first element `y` with `lt x y`. -/
def insertG (x : α) : List α → List α
  | [] => [x]
  | y :: ys => if lt x y then x :: y :: ys else y :: insertG x ys

/-- Insertion sort on lists, consuming the input left to right. -/
def insertionSortL (l : List α) : List α :=
  l.foldl (fun acc x => insertG lt x acc) []

/-- Non-descending order with respect to `lt`: no later element is
strictly less than an earlier one. -/
def SortedB (l : List α) : Prop :=
  l.Pairwise fun u v => lt v u = false

end InsertionList

/-! ## Drift.ComputeCommand (drift.go) -/

/-- An error returned by `SimulateScheduling`: either the sentinel
`errCandidateDeleting` (matched via `errors.Is`) or any other error. -/
inductive SimErr where
  | candidateDeleting
  | other (msg : String)
  deriving DecidableEq, Repr

/-- Outcome of one `SimulateScheduling` call. -/
inductive SimOutcome where
  | failure (e : SimErr)
  | success (results : Results)
  deriving DecidableEq, Repr

/-- The `Drift` struct: its collaborators, reduced to the observations the
embedded code makes of them.  `getPods` models `nodeutil.GetPods` keyed by
node name (`none` = listing error); `simulate` models
`SimulateScheduling` for a single candidate. -/
structure Drift where
  getPods : String → Option (List Pod)
  simulate : Candidate → SimOutcome

/-- `v1.DisruptionReasonDrifted`, the value of `Drift.Reason()`. -/
def DisruptionReasonDrifted : String := "Drifted"

/-- `Drift.Class()` is the eventual disruption class. -/
def Drift.Class (_ : Drift) : String := EventualDisruptionClass

/-- `Drift.Reason()`. -/
def Drift.Reason (_ : Drift) : String := DisruptionReasonDrifted

/-- The two-level disruption budget mapping
`map[string]map[v1.DisruptionReason]int` as a total function
(Go map reads of missing keys yield 0, and the code only ever decrements
entries it has just read to be positive). -/
def Budget := String → String → Nat

/-- Decrement one entry of the budget mapping. -/
def Budget.dec (B : Budget) (pool reason : String) : Budget :=
  fun p r => if p = pool ∧ r = reason then B p r - 1 else B p r

/-- `math.MaxInt` on a 64-bit platform. -/
def maxIntGo : Nat := 2 ^ 63 - 1

/-- The `unevictablePods` closure of `ComputeCommand`: count the pods on
the candidate's node that are not disruptable but are waiting eviction;
a listing failure yields `math.MaxInt`.  The closure's per-call cache
(keyed by node name) is semantically transparent because `getPods` is a
fixed function, so it is modelled by direct calls. -/
def unevictablePods (dr : Drift) (c : Candidate) : Nat :=
  match dr.getPods c.nodeName with
  | none => maxIntGo
  | some pods => pods.countP fun p => !p.isDisruptable && p.isWaitingEviction

/-- The comparison of the initial `sort.Slice`:
`Time.Before` on the drifted condition's last transition times. -/
def driftLess (a b : Candidate) : Bool :=
  a.driftedLastTransitionTime < b.driftedLastTransitionTime

/-- A throwaway default `Candidate` (the sort embedding's out-of-bounds
read default, never actually read). -/
instance : Inhabited Candidate :=
  ⟨{ nodeName := "", nodeClaimName := "", nodePoolName := ""
     driftedLastTransitionTime := 0, reschedulablePods := []
     instanceTypeLabel := "", capacityType := "", zone := ""
     instanceTypeName := none, disruptionCost := 0 }⟩

/-- The empty-node scan of `ComputeCommand` (drift.go lines 76-87): walk
the sorted candidates; each one with no reschedulable pods and a positive
pool/reason budget is appended to the `empty` batch and decrements that
budget entry in place. -/
def emptyScan (reason : String) : Budget → List Candidate → List Candidate × Budget
  | B, [] => ([], B)
  | B, c :: rest =>
    if c.reschedulablePods.length > 0 then emptyScan reason B rest
    else if B c.nodePoolName reason > 0 then
      let sb := emptyScan reason (B.dec c.nodePoolName reason) rest
      (c :: sb.1, sb.2)
    else emptyScan reason B rest

/-- What one `ComputeCommand` call returns and effects: the Go results
`(Command, scheduling.Results, error)`, the budget mapping after its
in-place mutations, and two explicit side-effect traces — the candidates
passed to `SimulateScheduling` (in call order) and the `Blocked`
notifications published. -/
structure ComputeResult where
  cmd : Command
  results : Results
  error : Option SimErr
  budget : Budget
  simulated : List Candidate
  events : List BlockedEvent

/-- The scan loop of `ComputeCommand` (drift.go lines 115-149): skip a
candidate whose pool/reason budget is zero (without decrementing);
otherwise simulate.  A `errCandidateDeleting` failure skips the candidate;
any other failure aborts with `Command{}` and the error; unplaceable pods
publish a `Blocked` notification and skip; otherwise return a command
with this single candidate and the proposed replacements.  `sims`/`evs`
accumulate the traces in reverse. -/
def driftLoop (dr : Drift) (reason : String) (B : Budget) :
    List Candidate → List Candidate → List BlockedEvent → ComputeResult
  | [], sims, evs =>
    ⟨Command.empty, Results.empty, none, B, sims.reverse, evs.reverse⟩
  | c :: rest, sims, evs =>
    if B c.nodePoolName reason = 0 then driftLoop dr reason B rest sims evs
    else
      match dr.simulate c with
      | .failure .candidateDeleting => driftLoop dr reason B rest (c :: sims) evs
      | .failure (.other m) =>
        ⟨Command.empty, Results.empty, some (.other m), B, (c :: sims).reverse, evs.reverse⟩
      | .success results =>
        if ¬ results.allNonPendingPodsScheduled then
          driftLoop dr reason B rest (c :: sims)
            (⟨c.nodeName, c.nodeClaimName,
              String.intercalate ", " results.nonPendingPodSchedulingErrors⟩ :: evs)
        else
          ⟨⟨[c], results.newNodeClaims⟩, results, none, B, (c :: sims).reverse, evs.reverse⟩

/-- `Drift.ComputeCommand` (drift.go lines 67-150): sort by drifted-time
(`sort.Slice`, unstable), run the empty-node fast path and return its
batch if non-empty, otherwise re-sort stably by the unevictable-pod count
(`sort.SliceStable`) and run the scan loop. -/
def Drift.ComputeCommand (dr : Drift) (disruptionBudgetMapping : Budget)
    (candidates : List Candidate) : ComputeResult :=
  let candidates := sortSliceGo driftLess default candidates
  let eb := emptyScan (Drift.Reason dr) disruptionBudgetMapping candidates
  if eb.1.length > 0 then
    ⟨⟨eb.1, []⟩, Results.empty, none, eb.2, [], []⟩
  else
    let candidates2 :=
      sortSliceStableGo (fun a b => unevictablePods dr a < unevictablePods dr b)
        default candidates
    driftLoop dr (Drift.Reason dr) eb.2 candidates2 [] []

/-! ### Concrete fixtures used by the counterexamples and witnesses -/

/-- A candidate of pool `"pool"` with the given name, drifted transition
time and reschedulable pods. -/
def fixCand (name : String) (t : Int) (pods : List Pod) : Candidate :=
  { nodeName := name, nodeClaimName := name, nodePoolName := "pool"
    driftedLastTransitionTime := t, reschedulablePods := pods
    instanceTypeLabel := "it", capacityType := "spot", zone := "z"
    instanceTypeName := none, disruptionCost := 0 }

/-- A reschedulable pod. -/
def fixPod : Pod := ⟨"ns", "p1", "u1", true, true, false⟩

/-- A drift reconciler whose simulation always succeeds placing all pods
with no proposed replacements, over a cluster with no pods. -/
def fixDrift : Drift :=
  { getPods := fun _ => some []
    simulate := fun _ => .success ⟨[], true, []⟩ }

/-- A budget granting five drift disruptions to pool `"pool"`. -/
def fixBudget : Budget :=
  fun g r => if g = "pool" ∧ r = DisruptionReasonDrifted then 5 else 0

/-- A budget granting two drift disruptions to pool `"pool"`. -/
def fixBudget2 : Budget :=
  fun g r => if g = "pool" ∧ r = DisruptionReasonDrifted then 2 else 0

/-- Thirteen drifted candidates whose transition times make Go's
`sort.Slice` (pdqsort) swap the two time-5 candidates: with 13 elements
the insertion-sort cutoff is passed, the median-of-three pivot lands on
index 3, and the first Hoare partition moves `c3` in front of `c0`. -/
def fixCands13 : List Candidate :=
  [fixCand "c0" 5 [], fixCand "c1" 2 [], fixCand "c2" 3 [], fixCand "c3" 5 [],
   fixCand "c4" 1 [], fixCand "c5" 0 [], fixCand "c6" 4 [], fixCand "c7" 4 [],
   fixCand "c8" 4 [], fixCand "c9" 6 [], fixCand "c10" 4 [], fixCand "c11" 4 [],
   fixCand "c12" 9 []]

/-- Three empty (zero-reschedulable-pod) candidates of pool `"pool"`. -/
def fixCandsEmpty3 : List Candidate :=
  [fixCand "a" 1 [], fixCand "b" 2 [], fixCand "c" 3 []]

/-- A drift reconciler whose simulation always reports the candidate as
concurrently deleting. -/
def fixDriftDel : Drift :=
  { getPods := fun _ => some []
    simulate := fun _ => .failure .candidateDeleting }

/-- A drift reconciler whose simulation always fails fatally. -/
def fixDriftErr : Drift :=
  { getPods := fun _ => some []
    simulate := fun _ => .failure (.other "simulation broke") }

/-- A scheduling result proposing one replacement node. -/
def fixResults1 : Results := ⟨[⟨[], []⟩], true, []⟩

/-- A scheduling result proposing no replacement. -/
def fixResults0 : Results := ⟨[], true, []⟩

/-- A state node whose pod-disruptability validation fails with a
blocking-pod error, everything else passing. -/
def fixNode (tgp : Option Int) : StateNode :=
  { nodeName := "n", nodeClaimName := "nc", hasNodeClaim := true
    terminationGracePeriod := tgp, providerID := "pid"
    nodePoolLabel := "pool", instanceTypeLabel := "it"
    capacityTypeLabel := "spot", zoneLabel := "z"
    driftedLastTransitionTime := 0
    validateNodeDisruptableErr := none
    validatePodsPods := [fixPod]
    validatePodsErr := some (.podBlockEviction "pdb blocks")
    utilization := 1 }

/-- A v1.NodeClaim with a nil annotation map and no requirements. -/
def fixNodeClaim : NodeClaim :=
  { name := "nc", uid := "u", annotations := none, requirements := [] }

/-- A v1.NodeClaim carrying a nominated-pods annotation with one
well-formed, one malformed and one unfetchable entry. -/
def fixNodeClaimAnn : NodeClaim :=
  { name := "nc", uid := "u"
    annotations := some fun k =>
      if k = "karpenter.indeed.com/nominated-pods" then some "ns/p1,garbage,ns/gone"
      else none
    requirements := [⟨"topology.kubernetes.io/zone", ["us-east-1a"]⟩,
      ⟨"node.kubernetes.io/instance-type", ["m5.large"]⟩] }

/-- A pod-fetch collaborator knowing only `ns/p1`. -/
def fixGetPod : String → String → GetPodResult := fun ns name =>
  if ns = "ns" ∧ name = "p1" then .ok fixPod else .notFound

/-! ### The embedded sorts permute their input

Every mutation of the slice goes through `gswap`, so each routine returns
a permutation of its input list; these lemmas chain that fact through the
recursions. -/

section GoSortPerm

variable {α : Type} (lt : α → α → Bool) (d : α)

theorem getD_set_front_perm (t : List α) (m : Nat) (hm : m < t.length) (x : α) :
    (t.getD m d :: t.set m x).Perm (x :: t) := by
  induction t generalizing m with
  | nil => simp at hm
  | cons y tt ih =>
    cases m with
    | zero => simpa using List.Perm.swap x y tt
    | succ m =>
      simp only [List.getD_cons_succ, List.set_cons_succ]
      exact ((List.Perm.swap y (tt.getD m d) (tt.set m x)).trans
        (((ih m (by simpa using hm)).cons y).trans (List.Perm.swap x y tt)))

theorem set_set_perm (l : List α) (i j : Nat) (hi : i < l.length) (hj : j < l.length) :
    ((l.set i (l.getD j d)).set j (l.getD i d)).Perm l := by
  induction l generalizing i j with
  | nil => simp at hi
  | cons x t ih =>
    cases i with
    | zero =>
      cases j with
      | zero => simp
      | succ m =>
        simp only [List.getD_cons_zero, List.getD_cons_succ, List.set_cons_zero,
          List.set_cons_succ]
        exact getD_set_front_perm d t m (by simpa using hj) x
    | succ n =>
      cases j with
      | zero =>
        simp only [List.getD_cons_zero, List.getD_cons_succ, List.set_cons_zero,
          List.set_cons_succ]
        exact getD_set_front_perm d t n (by simpa using hi) x
      | succ m =>
        simp only [List.getD_cons_succ, List.set_cons_succ]
        exact (ih n m (by simpa using hi) (by simpa using hj)).cons x

theorem gswap_perm (l : List α) (i j : Nat) : (gswap d l i j).Perm l := by
  unfold gswap
  split
  · next h => exact set_set_perm d l i j h.1 h.2
  · exact List.Perm.refl l

theorem insertionSortInner_perm (a fuel : Nat) (l : List α) (j : Nat) :
    (insertionSortInner lt d a fuel l j).Perm l := by
  induction fuel generalizing l j with
  | zero => exact .refl l
  | succ fuel ih =>
    simp only [insertionSortInner]
    split
    · exact (ih _ _).trans (gswap_perm d l j (j - 1))
    · exact .refl l

theorem insertionSortOuter_perm (a b fuel : Nat) (l : List α) (i : Nat) :
    (insertionSortOuter lt d a b fuel l i).Perm l := by
  induction fuel generalizing l i with
  | zero => exact .refl l
  | succ fuel ih =>
    simp only [insertionSortOuter]
    split
    · exact (ih _ _).trans (insertionSortInner_perm lt d a (i + 1) l i)
    · exact .refl l

theorem insertionSortFunc_perm (a b : Nat) (l : List α) :
    (insertionSortFunc lt d a b l).Perm l :=
  insertionSortOuter_perm lt d a b (b + 1) l (a + 1)

theorem siftDownFunc_perm (hi first fuel : Nat) (l : List α) (root : Nat) :
    (siftDownFunc lt d hi first fuel l root).Perm l := by
  induction fuel generalizing l root with
  | zero => exact .refl l
  | succ fuel ih =>
    simp only [siftDownFunc]
    split
    · split <;> split
      · exact .refl l
      · exact (ih _ _).trans (gswap_perm d l _ _)
      · exact .refl l
      · exact (ih _ _).trans (gswap_perm d l _ _)
    · exact .refl l

theorem heapSortBuild_perm (a hi : Nat) (l : List α) (cnt : Nat) :
    (heapSortBuild lt d a hi l cnt).Perm l := by
  induction cnt generalizing l with
  | zero => exact .refl l
  | succ cnt ih =>
    exact (ih _).trans (siftDownFunc_perm lt d hi a (hi + 1) l cnt)

theorem heapSortPop_perm (first : Nat) (l : List α) (cnt : Nat) :
    (heapSortPop lt d first l cnt).Perm l := by
  induction cnt generalizing l with
  | zero => exact .refl l
  | succ cnt ih =>
    exact (ih _).trans ((siftDownFunc_perm lt d cnt first (cnt + 1) _ 0).trans
      (gswap_perm d l first (first + cnt)))

theorem heapSortFunc_perm (a b : Nat) (l : List α) : (heapSortFunc lt d a b l).Perm l :=
  (heapSortPop_perm lt d a _ (b - a)).trans (heapSortBuild_perm lt d a (b - a) l _)

theorem reverseRangeLoop_perm (fuel : Nat) (l : List α) (i j : Nat) :
    (reverseRangeLoop d fuel l i j).Perm l := by
  induction fuel generalizing l i j with
  | zero => exact .refl l
  | succ fuel ih =>
    simp only [reverseRangeLoop]
    split
    · exact (ih _ _ _).trans (gswap_perm d l i j)
    · exact .refl l

theorem reverseRangeFunc_perm (a b : Nat) (l : List α) :
    (reverseRangeFunc d a b l).Perm l :=
  reverseRangeLoop_perm d (b + 1) l a (b - 1)

theorem breakPatternsFunc_perm (a b : Nat) (l : List α) :
    (breakPatternsFunc d a b l).Perm l := by
  simp only [breakPatternsFunc]
  split
  · exact (gswap_perm d _ _ _).trans ((gswap_perm d _ _ _).trans (gswap_perm d l _ _))
  · exact .refl l

theorem pisShiftLeft_perm (fuel : Nat) (l : List α) (j : Nat) :
    (pisShiftLeft lt d fuel l j).Perm l := by
  induction fuel generalizing l j with
  | zero => exact .refl l
  | succ fuel ih =>
    simp only [pisShiftLeft]
    split
    · split
      · exact (ih _ _).trans (gswap_perm d l j (j - 1))
      · exact .refl l
    · exact .refl l

theorem pisShiftRight_perm (b fuel : Nat) (l : List α) (j : Nat) :
    (pisShiftRight lt d b fuel l j).Perm l := by
  induction fuel generalizing l j with
  | zero => exact .refl l
  | succ fuel ih =>
    simp only [pisShiftRight]
    split
    · split
      · exact (ih _ _).trans (gswap_perm d l j (j - 1))
      · exact .refl l
    · exact .refl l

theorem partialInsertionSortSteps_perm (a b : Nat) (l : List α) (i steps : Nat) :
    (partialInsertionSortSteps lt d a b l i steps).2.Perm l := by
  induction steps generalizing l i with
  | zero => exact .refl l
  | succ steps ih =>
    simp only [partialInsertionSortSteps]
    split
    · exact .refl l
    · split
      · exact .refl l
      · refine (ih _ _).trans ?_
        have h1 : ∀ (k : Nat) (m : List α),
            (if b - k ≥ 2 then pisShiftRight lt d b (b + 1) m (k + 1) else m).Perm m := by
          intro k m; split
          · exact pisShiftRight_perm lt d b (b + 1) m (k + 1)
          · exact .refl m
        have h2 : ∀ (k : Nat) (m : List α),
            (if k - a ≥ 2 then pisShiftLeft lt d k m (k - 1) else m).Perm m := by
          intro k m; split
          · exact pisShiftLeft_perm lt d k m (k - 1)
          · exact .refl m
        exact (h1 _ _).trans ((h2 _ _).trans (gswap_perm d l _ _))

theorem partialInsertionSortFunc_perm (a b : Nat) (l : List α) :
    (partialInsertionSortFunc lt d a b l).2.Perm l :=
  partialInsertionSortSteps_perm lt d a b l (a + 1) 5

theorem partitionLoop_perm (a fuel : Nat) (l : List α) (i j : Nat) :
    (partitionLoop lt d a fuel l i j).1.Perm l := by
  induction fuel generalizing l i j with
  | zero => exact .refl l
  | succ fuel ih =>
    simp only [partitionLoop]
    split
    · exact .refl l
    · exact (ih _ _ _).trans (gswap_perm d l _ _)

theorem partitionFunc_perm (a b piv : Nat) (l : List α) :
    (partitionFunc lt d a b piv l).1.Perm l := by
  simp only [partitionFunc]
  split
  · exact (gswap_perm d _ _ _).trans (gswap_perm d l a piv)
  · exact (gswap_perm d _ _ _).trans ((partitionLoop_perm lt d a b _ _ _).trans
      ((gswap_perm d _ _ _).trans (gswap_perm d l a piv)))

theorem partitionEqualLoop_perm (a fuel : Nat) (l : List α) (i j : Nat) :
    (partitionEqualLoop lt d a fuel l i j).1.Perm l := by
  induction fuel generalizing l i j with
  | zero => exact .refl l
  | succ fuel ih =>
    simp only [partitionEqualLoop]
    split
    · exact .refl l
    · exact (ih _ _ _).trans (gswap_perm d l _ _)

theorem partitionEqualFunc_perm (a b piv : Nat) (l : List α) :
    (partitionEqualFunc lt d a b piv l).1.Perm l :=
  (partitionEqualLoop_perm lt d a b _ (a + 1) (b - 1)).trans (gswap_perm d l a piv)

theorem pdqsortLoop_perm (fuel : Nat) (l : List α) (a b limit : Nat) (wb wp : Bool) :
    (pdqsortLoop lt d fuel l a b limit wb wp).Perm l := by
  induction fuel generalizing l a b limit wb wp with
  | zero => exact .refl l
  | succ fuel ih =>
    have hbp : ∀ (wb : Bool) (m : List α) (x : Nat), (pdqBP d wb a b m x).1.Perm m := by
      intro wb m x
      unfold pdqBP
      split
      · exact breakPatternsFunc_perm d a b m
      · exact .refl m
    have hrv : ∀ (m : List α) (u : Nat × SortedHint), (pdqRV d a b m u).1.Perm m := by
      intro m u
      unfold pdqRV
      split
      · exact reverseRangeFunc_perm d a b m
      · exact .refl m
    have hpis : ∀ (wb wp : Bool) (h : SortedHint) (m : List α),
        (pdqPIS lt d wb wp h a b m).2.Perm m := by
      intro wb wp h m
      unfold pdqPIS
      split
      · exact partialInsertionSortFunc_perm lt d a b m
      · exact .refl m
    simp only [pdqsortLoop]
    split
    · exact insertionSortFunc_perm lt d a b l
    · split
      · exact heapSortFunc_perm lt d a b l
      · split
        · exact (hpis _ _ _ _).trans ((hrv _ _).trans (hbp _ _ _))
        · split
          · exact (ih _ _ _ _ _ _).trans ((partitionEqualFunc_perm lt d a b _ _).trans
              ((hpis _ _ _ _).trans ((hrv _ _).trans (hbp _ _ _))))
          · split
            · exact (ih _ _ _ _ _ _).trans ((ih _ _ _ _ _ _).trans
                ((partitionFunc_perm lt d a b _ _).trans
                  ((hpis _ _ _ _).trans ((hrv _ _).trans (hbp _ _ _)))))
            · exact (ih _ _ _ _ _ _).trans ((ih _ _ _ _ _ _).trans
                ((partitionFunc_perm lt d a b _ _).trans
                  ((hpis _ _ _ _).trans ((hrv _ _).trans (hbp _ _ _)))))

theorem pdqsortFunc_perm (l : List α) (a b limit : Nat) :
    (pdqsortFunc lt d l a b limit).Perm l :=
  pdqsortLoop_perm lt d (b - a + 1) l a b limit true true

theorem sortSliceGo_perm (l : List α) : (sortSliceGo lt d l).Perm l :=
  pdqsortFunc_perm lt d l 0 l.length (bitsLen l.length)

theorem shiftRangeUp_perm (stop fuel : Nat) (l : List α) (k : Nat) :
    (shiftRangeUp d stop fuel l k).Perm l := by
  induction fuel generalizing l k with
  | zero => exact .refl l
  | succ fuel ih =>
    simp only [shiftRangeUp]
    split
    · exact (ih _ _).trans (gswap_perm d l k (k + 1))
    · exact .refl l

theorem shiftRangeDown_perm (stop fuel : Nat) (l : List α) (k : Nat) :
    (shiftRangeDown d stop fuel l k).Perm l := by
  induction fuel generalizing l k with
  | zero => exact .refl l
  | succ fuel ih =>
    simp only [shiftRangeDown]
    split
    · exact (ih _ _).trans (gswap_perm d l k (k - 1))
    · exact .refl l

theorem swapRangeLoop_perm (a b i n : Nat) (l : List α) :
    (swapRangeLoop d a b i n l).Perm l := by
  induction n generalizing l i with
  | zero => exact .refl l
  | succ n ih => exact (ih _ _).trans (gswap_perm d l (a + i) (b + i))

theorem swapRangeFunc_perm (a b n : Nat) (l : List α) :
    (swapRangeFunc d a b n l).Perm l :=
  swapRangeLoop_perm d a b 0 n l

theorem rotateLoop_perm (m fuel : Nat) (l : List α) (i j : Nat) :
    (rotateLoop d m fuel l i j).Perm l := by
  induction fuel generalizing l i j with
  | zero => exact .refl l
  | succ fuel ih =>
    simp only [rotateLoop]
    split
    · split
      · exact (ih _ _ _).trans (swapRangeFunc_perm d _ _ _ l)
      · exact (ih _ _ _).trans (swapRangeFunc_perm d _ _ _ l)
    · exact swapRangeFunc_perm d _ _ _ l

theorem rotateFunc_perm (a m b : Nat) (l : List α) : (rotateFunc d a m b l).Perm l :=
  rotateLoop_perm d m (b - a + 1) l (m - a) (b - m)

theorem symMergeFunc_perm (fuel : Nat) (l : List α) (a m b : Nat) :
    (symMergeFunc lt d fuel l a m b).Perm l := by
  induction fuel generalizing l a m b with
  | zero => exact .refl l
  | succ fuel ih =>
    have hrot : ∀ (c : Prop) (_ : Decidable c) (x y z : Nat) (q : List α),
        (if c then rotateFunc d x y z q else q).Perm q := by
      intro c inst x y z q
      split
      · exact rotateFunc_perm d x y z q
      · exact .refl q
    have hsm : ∀ (c : Prop) (_ : Decidable c) (x y z : Nat) (q : List α),
        (if c then symMergeFunc lt d fuel q x y z else q).Perm q := by
      intro c inst x y z q
      split
      · exact ih q x y z
      · exact .refl q
    simp only [symMergeFunc]
    split
    · exact shiftRangeUp_perm d _ _ l a
    · split
      · exact shiftRangeDown_perm d _ _ l m
      · exact (hsm _ _ _ _ _ _).trans ((hsm _ _ _ _ _ _).trans (hrot _ _ _ _ _ _))

theorem stableInsertBlocks_perm (n fuel : Nat) (l : List α) (a b : Nat) :
    (stableInsertBlocks lt d n fuel l a b).Perm l := by
  induction fuel generalizing l a b with
  | zero => exact .refl l
  | succ fuel ih =>
    simp only [stableInsertBlocks]
    split
    · exact (ih _ _ _).trans (insertionSortFunc_perm lt d a b l)
    · exact insertionSortFunc_perm lt d a n l

theorem symMergeBlocks_perm (n bs fuel : Nat) (l : List α) (a b : Nat) :
    (symMergeBlocks lt d n bs fuel l a b).Perm l := by
  induction fuel generalizing l a b with
  | zero => exact .refl l
  | succ fuel ih =>
    simp only [symMergeBlocks]
    split
    · exact (ih _ _ _).trans (symMergeFunc_perm lt d _ l a (a + bs) b)
    · split
      · exact symMergeFunc_perm lt d _ l a (a + bs) n
      · exact .refl l

theorem stableOuter_perm (n fuel : Nat) (l : List α) (bs : Nat) :
    (stableOuter lt d n fuel l bs).Perm l := by
  induction fuel generalizing l bs with
  | zero => exact .refl l
  | succ fuel ih =>
    simp only [stableOuter]
    split
    · exact (ih _ _).trans (symMergeBlocks_perm lt d n bs (n + 2) l 0 (2 * bs))
    · exact .refl l

theorem stableFunc_perm (l : List α) (n : Nat) : (stableFunc lt d l n).Perm l :=
  (stableOuter_perm lt d n (n + 1) _ 20).trans (stableInsertBlocks_perm lt d n (n + 2) l 0 20)

theorem sortSliceStableGo_perm (l : List α) : (sortSliceStableGo lt d l).Perm l :=
  stableFunc_perm lt d l l.length

end GoSortPerm

/-! ### The short-list path of `sort.Slice` is a stable insertion sort

`pdqsort_func` hands ranges of at most 12 elements to
`insertionSort_func`; these lemmas identify that array loop with the
list-level `insertG`-fold, from which order and stability follow for
comparisons that are strict weak orders (here: the drift-time
comparison). -/

section InsertionBridge

variable {α : Type} (lt : α → α → Bool) (d : α)

theorem insertG_length (x : α) (p : List α) : (insertG lt x p).length = p.length + 1 := by
  induction p with
  | nil => rfl
  | cons y ys ih =>
    simp only [insertG]
    split
    · rfl
    · simpa using ih

theorem mem_insertG (x : α) (p : List α) (z : α) (hz : z ∈ insertG lt x p) :
    z ∈ p ∨ z = x := by
  induction p with
  | nil => simpa [insertG] using hz
  | cons y ys ih =>
    simp only [insertG] at hz
    split at hz
    · rcases List.mem_cons.mp hz with rfl | hz
      · exact .inr rfl
      · exact .inl hz
    · rcases List.mem_cons.mp hz with rfl | hz
      · exact .inl (.head ys)
      · rcases ih hz with h | h
        · exact .inl (.tail y h)
        · exact .inr h

theorem insertG_append_gt (x y : α) (q : List α) (h : lt x y = true) :
    insertG lt x (q ++ [y]) = insertG lt x q ++ [y] := by
  induction q with
  | nil => simp [insertG, h]
  | cons z q ih =>
    simp only [List.cons_append, insertG]
    split
    · rfl
    · exact congrArg (z :: ·) ih

theorem insertG_all_le (x : α) (p : List α) (h : ∀ z ∈ p, lt x z = false) :
    insertG lt x p = p ++ [x] := by
  induction p with
  | nil => rfl
  | cons y ys ih =>
    simp only [insertG]
    rw [if_neg (by simp [h y (.head ys)]), ih fun z hz => h z (.tail y hz)]
    rfl

theorem insertG_sorted
    (hasym : ∀ u v, lt u v = true → lt v u = false)
    (hneg : ∀ u v w, lt u v = false → lt v w = false → lt u w = false)
    (x : α) (p : List α) (hp : SortedB lt p) : SortedB lt (insertG lt x p) := by
  induction p with
  | nil => simp [insertG, SortedB]
  | cons y ys ih =>
    rcases List.pairwise_cons.mp hp with ⟨hy, hys⟩
    simp only [insertG]
    split
    · next hxy =>
      refine List.pairwise_cons.mpr ⟨?_, hp⟩
      intro w hw
      rcases List.mem_cons.mp hw with rfl | hw
      · exact hasym x w hxy
      · exact hneg w y x (hy w hw) (hasym x y hxy)
    · next hxy =>
      refine List.pairwise_cons.mpr ⟨?_, ih hys⟩
      intro w hw
      rcases mem_insertG lt x ys w hw with h | rfl
      · exact hy w h
      · exact Bool.not_eq_true _ ▸ hxy

theorem gswap_cons (z : α) (l : List α) (i j : Nat) :
    gswap d (z :: l) (i + 1) (j + 1) = z :: gswap d l i j := by
  unfold gswap
  by_cases h : i < l.length ∧ j < l.length
  · rw [if_pos (by simpa using h), if_pos h]
    simp
  · rw [if_neg (by simpa using h), if_neg h]

theorem gswap_adjacent (q : List α) (y x : α) (s : List α) :
    gswap d (q ++ y :: x :: s) (q.length + 1) q.length = q ++ x :: y :: s := by
  induction q with
  | nil => simp [gswap]
  | cons z q ih =>
    simp only [List.cons_append, List.length_cons]
    rw [show q.length + 1 + 1 = (q.length + 1) + 1 from rfl, gswap_cons, ih]

theorem insertionSortInner_bridge
    (hneg : ∀ u v w, lt u v = false → lt v w = false → lt u w = false)
    (p : List α) (x : α) (s : List α) (fuel : Nat)
    (hfuel : p.length + 1 ≤ fuel) (hp : SortedB lt p) :
    insertionSortInner lt d 0 fuel (p ++ x :: s) p.length
      = insertG lt x p ++ s := by
  induction p using List.reverseRecOn generalizing s fuel with
  | nil =>
    cases fuel with
    | zero => omega
    | succ f => simp [insertionSortInner, insertG]
  | append_singleton q y ih =>
    cases fuel with
    | zero => simp at hfuel
    | succ f =>
      have hlist : (q ++ [y]) ++ x :: s = q ++ y :: x :: s := by simp
      have hlen : (q ++ [y]).length = q.length + 1 := by simp
      have hx : gread d (q ++ y :: x :: s) (q.length + 1) = x := by
        unfold gread
        rw [List.getD_append_right _ _ _ _ (by omega)]
        simp
      have hy : gread d (q ++ y :: x :: s) (q.length + 1 - 1) = y := by
        unfold gread
        simp only [Nat.add_sub_cancel]
        rw [List.getD_append_right _ _ _ _ (by omega)]
        simp
      rw [hlist, hlen]
      simp only [insertionSortInner, hx, hy]
      by_cases hxy : lt x y = true
      · rw [if_pos ⟨Nat.succ_pos _, hxy⟩]
        rw [show q.length + 1 - 1 = q.length from rfl, gswap_adjacent]
        have hq : SortedB lt q :=
          hp.sublist (List.sublist_append_left q [y])
        rw [ih (y :: s) f (by simpa using hfuel) hq]
        rw [insertG_append_gt lt x y q hxy]
        simp
      · rw [if_neg (by
          intro hcon
          exact hxy hcon.2)]
        have hstop : ∀ z ∈ q ++ [y], lt x z = false := by
          intro z hz
          rcases List.mem_append.mp hz with hz | hz
          · have hyz : lt y z = false := by
              have := List.pairwise_append.mp hp
              exact this.2.2 z hz y (.head []) |>.symm ▸ rfl
            exact hneg x y z (Bool.not_eq_true _ ▸ hxy) hyz
          · rcases List.mem_singleton.mp hz with rfl
            exact Bool.not_eq_true _ ▸ hxy
        rw [insertG_all_le lt x (q ++ [y]) hstop]
        simp

theorem insertionSortOuter_bridge
    (hasym : ∀ u v, lt u v = true → lt v u = false)
    (hneg : ∀ u v w, lt u v = false → lt v w = false → lt u w = false)
    (s : List α) (p : List α) (fuel : Nat)
    (hfuel : s.length + 1 ≤ fuel) (hp : SortedB lt p) :
    insertionSortOuter lt d 0 (p.length + s.length) fuel (p ++ s) p.length
      = s.foldl (fun acc x => insertG lt x acc) p := by
  induction s generalizing p fuel with
  | nil =>
    cases fuel with
    | zero => omega
    | succ f => simp [insertionSortOuter]
  | cons x s2 ih =>
    cases fuel with
    | zero => omega
    | succ f =>
      simp only [insertionSortOuter]
      rw [if_pos (by simp)]
      rw [insertionSortInner_bridge lt d hneg p x s2 (p.length + 1) le_rfl hp]
      have hlen := insertG_length lt x p
      have hb : p.length + (x :: s2).length = (insertG lt x p).length + s2.length := by
        rw [hlen]
        simp
        omega
      rw [hb, show p.length + 1 = (insertG lt x p).length from hlen.symm]
      rw [ih (insertG lt x p) f (by simpa using hfuel)
        (insertG_sorted lt hasym hneg x p hp)]
      rfl

theorem sortSliceGo_insertion
    (hasym : ∀ u v, lt u v = true → lt v u = false)
    (hneg : ∀ u v w, lt u v = false → lt v w = false → lt u w = false)
    (l : List α) (h : l.length ≤ 12) :
    sortSliceGo lt d l = insertionSortL lt l := by
  unfold sortSliceGo pdqsortFunc
  rw [show l.length - 0 + 1 = l.length + 1 from by omega]
  simp only [pdqsortLoop]
  rw [if_pos (show l.length - 0 ≤ 12 by omega)]
  unfold insertionSortFunc
  cases l with
  | nil => simp [insertionSortOuter, insertionSortL]
  | cons x rest =>
    have hb : (x :: rest).length = ([x] : List α).length + rest.length := by
      rw [List.length_cons, List.length_singleton, Nat.add_comm]
    rw [hb, show (0 : Nat) + 1 = ([x] : List α).length from rfl,
      show (x :: rest : List α) = [x] ++ rest from rfl,
      insertionSortOuter_bridge lt d hasym hneg rest [x]
        (([x] : List α).length + rest.length + 1) (by omega) (by simp [SortedB])]
    rfl

end InsertionBridge

/-! ### Order properties of the drift-time comparison -/

theorem driftLess_asymm : ∀ u v : Candidate, driftLess u v = true → driftLess v u = false := by
  intro u v h
  simp only [driftLess, decide_eq_true_eq] at h
  simp only [driftLess, decide_eq_false_iff_not]
  omega

theorem driftLess_neg_trans : ∀ u v w : Candidate,
    driftLess u v = false → driftLess v w = false → driftLess u w = false := by
  intro u v w h1 h2
  simp only [driftLess, decide_eq_false_iff_not] at h1 h2 ⊢
  omega

theorem insertG_filter_time (t : Int) (x : Candidate) (p : List Candidate)
    (hp : SortedB driftLess p) :
    (insertG driftLess x p).filter (fun c => c.driftedLastTransitionTime == t)
      = p.filter (fun c => c.driftedLastTransitionTime == t)
        ++ if x.driftedLastTransitionTime == t then [x] else [] := by
  induction p with
  | nil =>
    by_cases hxt : x.driftedLastTransitionTime = t
    · simp [insertG, hxt]
    · simp [insertG, hxt]
  | cons y ys ih =>
    rcases List.pairwise_cons.mp hp with ⟨hy, hys⟩
    simp only [insertG]
    by_cases hxy : driftLess x y = true
    · rw [if_pos hxy]
      have htx : x.driftedLastTransitionTime < y.driftedLastTransitionTime := by
        simpa [driftLess] using hxy
      by_cases hpt : (x.driftedLastTransitionTime == t) = true
      · have hxt : x.driftedLastTransitionTime = t := beq_iff_eq.mp hpt
        have hnil : (y :: ys).filter (fun c => c.driftedLastTransitionTime == t) = [] := by
          rw [List.filter_eq_nil_iff]
          intro z hz
          rcases List.mem_cons.mp hz with rfl | hz
          · simp only [beq_iff_eq]
            omega
          · have hzy : driftLess z y = false := hy z hz
            simp only [driftLess, decide_eq_false_iff_not] at hzy
            simp only [beq_iff_eq]
            omega
        rw [List.filter_cons, if_pos hpt, hnil, if_pos hpt]
        simp
      · rw [List.filter_cons, if_neg hpt, if_neg hpt]
        simp
    · rw [if_neg hxy]
      rw [List.filter_cons, List.filter_cons, ih hys]
      split
      · split
        · simp
        · simp
      · split
        · simp
        · simp

theorem foldl_insertG_filter_time (t : Int) (cs : List Candidate) :
    ∀ acc, SortedB driftLess acc →
      (cs.foldl (fun acc x => insertG driftLess x acc) acc).filter
          (fun c => c.driftedLastTransitionTime == t)
        = acc.filter (fun c => c.driftedLastTransitionTime == t)
          ++ cs.filter (fun c => c.driftedLastTransitionTime == t) := by
  induction cs with
  | nil => intro acc _; simp
  | cons x cs2 ih =>
    intro acc hacc
    simp only [List.foldl_cons, List.filter_cons]
    rw [ih (insertG driftLess x acc)
      (insertG_sorted driftLess driftLess_asymm driftLess_neg_trans x acc hacc)]
    rw [insertG_filter_time t x acc hacc]
    split
    · simp
    · simp

theorem insertionSortL_sorted_drift (cs : List Candidate) :
    SortedB driftLess (insertionSortL driftLess cs) := by
  suffices h : ∀ acc, SortedB driftLess acc →
      SortedB driftLess (cs.foldl (fun acc x => insertG driftLess x acc) acc) by
    exact h [] (by simp [SortedB])
  induction cs with
  | nil => exact fun acc hacc => hacc
  | cons x cs2 ih =>
    intro acc hacc
    exact ih (insertG driftLess x acc)
      (insertG_sorted driftLess driftLess_asymm driftLess_neg_trans x acc hacc)

/-! ### Behaviour of the empty-node scan and the simulation loop -/

/-- How the empty-node scan changes the budget mapping: the drift-reason
entry of pool `g` drops by the number of selected candidates of pool `g`;
every other entry is untouched. -/
theorem emptyScan_budget (r : String) (B : Budget) (cs : List Candidate) (g s : String) :
    (emptyScan r B cs).2 g s =
      if s = r then B g s - (emptyScan r B cs).1.countP (fun c => c.nodePoolName == g)
      else B g s := by
  induction cs generalizing B with
  | nil => simp [emptyScan]
  | cons c rest ih =>
    simp only [emptyScan]
    split
    · rw [ih]
    · split
      · rw [ih]
        by_cases hs : s = r
        · rw [if_pos hs, if_pos hs, List.countP_cons]
          by_cases hg : c.nodePoolName = g
          · have hp : (c.nodePoolName == g) = true := by simp [hg]
            have hdec : B.dec c.nodePoolName r g s = B g s - 1 := by
              unfold Budget.dec
              rw [if_pos (And.intro hg.symm hs)]
            rw [hp, hdec]
            simp only [if_true]
            omega
          · have hp : (c.nodePoolName == g) = false := by simp [hg]
            have hdec : B.dec c.nodePoolName r g s = B g s := by
              unfold Budget.dec
              exact if_neg fun h => hg h.1.symm
            rw [hp, hdec]
            simp
        · rw [if_neg hs, if_neg hs]
          simp only [Budget.dec]
          exact if_neg fun h => hs h.2
      · rw [ih]

/-- Every candidate selected by the empty-node scan has no reschedulable
pods. -/
theorem emptyScan_sel_pods (r : String) (B : Budget) (cs : List Candidate) :
    ∀ c ∈ (emptyScan r B cs).1, c.reschedulablePods = [] := by
  induction cs generalizing B with
  | nil => simp [emptyScan]
  | cons c rest ih =>
    simp only [emptyScan]
    split
    · exact ih B
    · next hpods =>
      split
      · intro x hx
        rcases List.mem_cons.mp hx with hx | hx
        · subst hx
          exact List.length_eq_zero.mp (by omega)
        · exact ih _ x hx
      · exact ih B

/-- Every candidate selected by the empty-node scan comes from the input
list. -/
theorem emptyScan_sel_subset (r : String) (B : Budget) (cs : List Candidate) :
    ∀ c ∈ (emptyScan r B cs).1, c ∈ cs := by
  induction cs generalizing B with
  | nil => simp [emptyScan]
  | cons c rest ih =>
    simp only [emptyScan]
    split
    · exact fun x hx => .tail c (ih B x hx)
    · split
      · intro x hx
        rcases List.mem_cons.mp hx with hx | hx
        · subst hx; exact .head rest
        · exact .tail c (ih _ x hx)
      · exact fun x hx => .tail c (ih B x hx)

/-- Per-pool accounting of the empty-node scan: for each pool `g`, the
number of selected candidates of pool `g` is the minimum of the remaining
budget and the number of zero-reschedulable-pod candidates of `g`. -/
theorem emptyScan_count (r : String) (B : Budget) (cs : List Candidate) (g : String) :
    (emptyScan r B cs).1.countP (fun c => c.nodePoolName == g) =
      min (B g r)
        (cs.countP fun c => c.nodePoolName == g && c.reschedulablePods.isEmpty) := by
  induction cs generalizing B with
  | nil => simp [emptyScan]
  | cons c rest ih =>
    simp only [emptyScan]
    split
    · next hpods =>
      have hfull : (c.nodePoolName == g && c.reschedulablePods.isEmpty) = false := by
        cases hl : c.reschedulablePods with
        | nil => rw [hl] at hpods; simp at hpods
        | cons a as => simp [hl]
      rw [ih, List.countP_cons, hfull]
      simp
    · next hpods =>
      have hempty : c.reschedulablePods.isEmpty = true := by
        cases hl : c.reschedulablePods with
        | nil => simp
        | cons a as => rw [hl] at hpods; simp at hpods
      split
      · next hBpos =>
        simp only [List.countP_cons, ih]
        by_cases hg : c.nodePoolName = g
        · have hp : (c.nodePoolName == g) = true := by simp [hg]
          have hq : (c.nodePoolName == g && c.reschedulablePods.isEmpty) = true := by
            simp [hg, hempty]
          have hdec : B.dec c.nodePoolName r g r = B g r - 1 := by
            unfold Budget.dec
            rw [if_pos (And.intro hg.symm rfl)]
          rw [hq, hp, hdec]
          simp only [if_true]
          rw [hg] at hBpos
          omega
        · have hp : (c.nodePoolName == g) = false := by simp [hg]
          have hq : (c.nodePoolName == g && c.reschedulablePods.isEmpty) = false := by
            simp [hg]
          have hdec : B.dec c.nodePoolName r g r = B g r := by
            unfold Budget.dec
            exact if_neg fun h => hg h.1.symm
          rw [hq, hp, hdec]
          simp
      · next hBzero =>
        rw [ih, List.countP_cons]
        by_cases hg : c.nodePoolName = g
        · have hq : (c.nodePoolName == g && c.reschedulablePods.isEmpty) = true := by
            simp [hg, hempty]
          have h0 : B g r = 0 := by rw [← hg]; omega
          rw [hq, h0]
          simp
        · have hq : (c.nodePoolName == g && c.reschedulablePods.isEmpty) = false := by
            simp [hg]
          rw [hq]
          simp

/-- If the scan selects nothing, the budget mapping is unchanged. -/
theorem emptyScan_nil_budget (r : String) (B : Budget) (cs : List Candidate)
    (h : (emptyScan r B cs).1 = []) (g s : String) : (emptyScan r B cs).2 g s = B g s := by
  rw [emptyScan_budget, h]
  simp

/-- If the scan selects nothing, every zero-reschedulable-pod candidate of
the input had a zero budget entry. -/
theorem emptyScan_nil_zero_budget (r : String) (B : Budget) (cs : List Candidate)
    (h : (emptyScan r B cs).1 = []) :
    ∀ c ∈ cs, c.reschedulablePods = [] → B c.nodePoolName r = 0 := by
  intro c hc hpods
  have := emptyScan_count r B cs c.nodePoolName
  rw [h] at this
  simp only [List.countP_nil] at this
  have hcnt : 0 < cs.countP fun x => x.nodePoolName == c.nodePoolName
      && x.reschedulablePods.isEmpty := by
    rw [List.countP_pos_iff]
    exact ⟨c, hc, by simp [hpods]⟩
  omega

/-- The scan selects something as soon as some candidate has no
reschedulable pods and a positive budget entry for its pool. -/
theorem emptyScan_ne_nil (r : String) (B : Budget) (cs : List Candidate)
    (c : Candidate) (hc : c ∈ cs) (hpods : c.reschedulablePods = [])
    (hB : B c.nodePoolName r > 0) : (emptyScan r B cs).1 ≠ [] := by
  intro h
  exact absurd (emptyScan_nil_zero_budget r B cs h c hc hpods) (by omega)

/-- The simulation loop never writes the budget mapping. -/
theorem driftLoop_budget (dr : Drift) (r : String) (B : Budget) (cs : List Candidate)
    (sims : List Candidate) (evs : List BlockedEvent) :
    (driftLoop dr r B cs sims evs).budget = B := by
  induction cs generalizing sims evs with
  | nil => rfl
  | cons c rest ih =>
    simp only [driftLoop]
    split
    · exact ih _ _
    · split
      · exact ih _ _
      · rfl
      · split
        · exact ih _ _
        · rfl

/-- If the loop returns an error, it is a non-`candidateDeleting`
simulation error, and the command and results are the zero values. -/
theorem driftLoop_error (dr : Drift) (r : String) (B : Budget) (cs : List Candidate)
    (sims : List Candidate) (evs : List BlockedEvent) (e : SimErr) :
    (driftLoop dr r B cs sims evs).error = some e →
    (driftLoop dr r B cs sims evs).cmd = Command.empty ∧
    (driftLoop dr r B cs sims evs).results = Results.empty ∧
    ∃ m, e = SimErr.other m := by
  induction cs generalizing sims evs with
  | nil => intro h; simp [driftLoop] at h
  | cons c rest ih =>
    simp only [driftLoop]
    split
    · exact ih _ _
    · split
      · exact ih _ _
      · next m _ =>
        intro h
        simp only at h
        refine ⟨rfl, rfl, m, ?_⟩
        exact (Option.some_inj.mp h).symm
      · split
        · exact ih _ _
        · intro h
          simp at h

/-- The loop's command never contains more than one candidate. -/
theorem driftLoop_len_le_one (dr : Drift) (r : String) (B : Budget) (cs : List Candidate)
    (sims : List Candidate) (evs : List BlockedEvent) :
    (driftLoop dr r B cs sims evs).cmd.candidates.length ≤ 1 := by
  induction cs generalizing sims evs with
  | nil => simp [driftLoop, Command.empty]
  | cons c rest ih =>
    simp only [driftLoop]
    split
    · exact ih _ _
    · split
      · exact ih _ _
      · simp [Command.empty]
      · split
        · exact ih _ _
        · simp

/-- When every zero-reschedulable-pod candidate in the scanned list has a
zero budget entry, the loop never commits a zero-reschedulable-pod
candidate. -/
theorem driftLoop_no_empty_candidate (dr : Drift) (r : String) (B : Budget)
    (cs : List Candidate) (sims : List Candidate) (evs : List BlockedEvent)
    (hz : ∀ c ∈ cs, c.reschedulablePods = [] → B c.nodePoolName r = 0) :
    ∀ c ∈ (driftLoop dr r B cs sims evs).cmd.candidates, c.reschedulablePods ≠ [] := by
  induction cs generalizing sims evs with
  | nil => simp [driftLoop, Command.empty]
  | cons c rest ih =>
    have hz1 : ∀ x ∈ rest, x.reschedulablePods = [] → B x.nodePoolName r = 0 :=
      fun x hx => hz x (.tail c hx)
    simp only [driftLoop]
    split
    · exact ih _ _ hz1
    · next hBne =>
      split
      · exact ih _ _ hz1
      · simp [Command.empty]
      · split
        · exact ih _ _ hz1
        · intro x hx
          simp only [Command.candidates] at hx
          rcases List.mem_singleton.mp hx with rfl
          intro hpods
          exact hBne (hz x (.head rest) hpods)

/-! ## Claim theorems for Drift.ComputeCommand -/

/-- C1: whenever some candidate has zero reschedulable pods and a positive
remaining budget for its pool under the drift reason, `ComputeCommand`
returns immediately from the empty-node fast path: no replacements, the
simulation is never invoked, no error, a non-empty candidate batch all of
whose members have zero reschedulable pods, per pool the batch holds
`min(budget, number of zero-pod candidates)` members (so with a single
pool of N zero-pod candidates and budget B < N, exactly B are returned),
and the budget entry of each pool drops by exactly its batch count (ending
at 0 in that instance). -/
theorem Drift_ComputeCommand_empty_fast_path (dr : Drift) (B : Budget)
    (cs : List Candidate)
    (h : ∃ c ∈ cs, c.reschedulablePods = [] ∧
      B c.nodePoolName DisruptionReasonDrifted > 0) :
    (dr.ComputeCommand B cs).cmd.replacements = [] ∧
    (dr.ComputeCommand B cs).simulated = [] ∧
    (dr.ComputeCommand B cs).error = none ∧
    (dr.ComputeCommand B cs).cmd.candidates ≠ [] ∧
    (∀ c ∈ (dr.ComputeCommand B cs).cmd.candidates, c.reschedulablePods = []) ∧
    (∀ g, (dr.ComputeCommand B cs).cmd.candidates.countP (fun c => c.nodePoolName == g) =
      min (B g DisruptionReasonDrifted)
        (cs.countP fun c => c.nodePoolName == g && c.reschedulablePods.isEmpty)) ∧
    (∀ g, (dr.ComputeCommand B cs).budget g DisruptionReasonDrifted =
      B g DisruptionReasonDrifted -
        (dr.ComputeCommand B cs).cmd.candidates.countP
          (fun c => c.nodePoolName == g)) := by
  obtain ⟨c, hc, hpods, hB⟩ := h
  have hmem : c ∈ sortSliceGo driftLess default cs :=
    (sortSliceGo_perm driftLess default cs).mem_iff.mpr hc
  have hne := emptyScan_ne_nil DisruptionReasonDrifted B
    (sortSliceGo driftLess default cs) c hmem hpods hB
  have hlen : (emptyScan DisruptionReasonDrifted B
      (sortSliceGo driftLess default cs)).1.length > 0 :=
    List.length_pos.mpr hne
  simp only [Drift.ComputeCommand, Drift.Reason, if_pos hlen]
  refine ⟨trivial, trivial, trivial, hne, emptyScan_sel_pods _ _ _, fun g => ?_, fun g => ?_⟩
  · rw [emptyScan_count,
      (sortSliceGo_perm driftLess default cs).countP_eq]
  · rw [emptyScan_budget, if_pos rfl]

/-- C3 counterexample: a candidate committed through the non-empty
(simulation) path does not decrement the budget mapping: with one
one-pod candidate, a budget of 5 and a successful simulation, the
returned command holds that candidate for pool `"pool"` yet the drift
budget entry of `"pool"` is still 5, not 5 − 1. -/
theorem Drift_budget_nonempty_no_decrement_cex :
    (fixDrift.ComputeCommand fixBudget [fixCand "n1" 0 [fixPod]]).cmd.candidates.countP
        (fun c => c.nodePoolName == "pool") = 1 ∧
    fixBudget "pool" DisruptionReasonDrifted = 5 ∧
    ¬ ((fixDrift.ComputeCommand fixBudget [fixCand "n1" 0 [fixPod]]).budget "pool"
          DisruptionReasonDrifted =
        fixBudget "pool" DisruptionReasonDrifted -
          (fixDrift.ComputeCommand fixBudget [fixCand "n1" 0 [fixPod]]).cmd.candidates.countP
            (fun c => c.nodePoolName == "pool")) := by
  decide

/-- C3 amended: for every pool `g`, the drift-reason budget entry after
the call equals its value before minus the number of returned candidates
of pool `g` that have zero reschedulable pods — i.e. the mapping is
decremented exactly for the empty-node fast-path batch; the non-empty
path's single committed candidate (which always has reschedulable pods)
does not decrement, skipped candidates never change the mapping, and
entries of other reasons are untouched. -/
theorem Drift_budget_accounting (dr : Drift) (B : Budget) (cs : List Candidate)
    (g s : String) (hs : s ≠ DisruptionReasonDrifted) :
    ((dr.ComputeCommand B cs).budget g DisruptionReasonDrifted =
      B g DisruptionReasonDrifted -
        (dr.ComputeCommand B cs).cmd.candidates.countP
          (fun c => c.nodePoolName == g && c.reschedulablePods.isEmpty)) ∧
    (dr.ComputeCommand B cs).budget g s = B g s := by
  simp only [Drift.ComputeCommand, Drift.Reason]
  split
  · next hlen =>
    dsimp only
    constructor
    · rw [emptyScan_budget, if_pos rfl]
      have hcong : (emptyScan DisruptionReasonDrifted B
            (sortSliceGo driftLess default cs)).1.countP
            (fun c => c.nodePoolName == g && c.reschedulablePods.isEmpty)
          = (emptyScan DisruptionReasonDrifted B
            (sortSliceGo driftLess default cs)).1.countP
            (fun c => c.nodePoolName == g) := by
        apply List.countP_congr
        intro c hcmem
        have := emptyScan_sel_pods DisruptionReasonDrifted B
          (sortSliceGo driftLess default cs) c hcmem
        simp [this]
      rw [hcong]
    · rw [emptyScan_budget, if_neg hs]
  · next hlen =>
    have hsel : (emptyScan DisruptionReasonDrifted B
        (sortSliceGo driftLess default cs)).1 = [] := by
      rcases hl : (emptyScan DisruptionReasonDrifted B
        (sortSliceGo driftLess default cs)).1 with _ | ⟨a, l⟩
      · rfl
      · rw [hl] at hlen; simp at hlen
    have hz : ∀ c ∈ sortSliceStableGo
        (fun a b => unevictablePods dr a < unevictablePods dr b) default
        (sortSliceGo driftLess default cs),
        c.reschedulablePods = [] → B c.nodePoolName DisruptionReasonDrifted = 0 := by
      intro c hcmem hcpods
      exact emptyScan_nil_zero_budget DisruptionReasonDrifted B _ hsel c
        ((sortSliceStableGo_perm _ default _).mem_iff.mp hcmem) hcpods
    have hcnt : (driftLoop dr DisruptionReasonDrifted
        (emptyScan DisruptionReasonDrifted B (sortSliceGo driftLess default cs)).2
        (sortSliceStableGo (fun a b => unevictablePods dr a < unevictablePods dr b)
          default (sortSliceGo driftLess default cs)) [] []).cmd.candidates.countP
        (fun c => c.nodePoolName == g && c.reschedulablePods.isEmpty) = 0 := by
      rw [List.countP_eq_zero]
      intro c hcmem
      have hcpods : c.reschedulablePods ≠ [] := by
        refine driftLoop_no_empty_candidate dr DisruptionReasonDrifted _ _ [] []
          ?_ c hcmem
        intro x hx hxpods
        rw [emptyScan_nil_budget DisruptionReasonDrifted B _ hsel]
        exact hz x hx hxpods
      cases hl : c.reschedulablePods with
      | nil => exact absurd hl hcpods
      | cons p ps => simp [hl]
    rw [driftLoop_budget, hcnt,
      emptyScan_nil_budget DisruptionReasonDrifted B _ hsel,
      emptyScan_nil_budget DisruptionReasonDrifted B _ hsel]
    exact ⟨rfl, rfl⟩

/-- C2 counterexample: the initial sort of `ComputeCommand` is Go's
`sort.Slice`, which is not stable: on the thirteen candidates of
`fixCands13`, the two candidates whose drift condition transitioned at
time 5 come back in the opposite of their insertion order (`c3` before
`c0`), even though the result is ascending by transition time. -/
theorem drift_initial_sort_unstable_cex :
    ((sortSliceGo driftLess default fixCands13).filter
        (fun c => c.driftedLastTransitionTime == 5)).map (fun c => c.nodeName)
      = ["c3", "c0"] ∧
    (fixCands13.filter (fun c => c.driftedLastTransitionTime == 5)).map
        (fun c => c.nodeName) = ["c0", "c3"] ∧
    ((sortSliceGo driftLess default fixCands13).map
        (fun c => c.driftedLastTransitionTime))
      = [0, 1, 2, 3, 4, 4, 4, 4, 4, 5, 5, 6, 9] ∧
    ¬ (((sortSliceGo driftLess default fixCands13).filter
        (fun c => c.driftedLastTransitionTime == 5)).map (fun c => c.nodeName)
      = (fixCands13.filter (fun c => c.driftedLastTransitionTime == 5)).map
        (fun c => c.nodeName)) := by
  decide

/-- C5: a non-`candidateDeleting` simulation error aborts the whole call
with the zero command and results and that error propagated (first
conjunct: every returned error is of that kind and comes with empty
command); a `candidateDeleting` simulation outcome merely skips the
candidate — with a single (non-empty) candidate the call returns a no-op
command and no error, whatever the budget. -/
theorem Drift_simulation_error_handling (dr : Drift) (B : Budget)
    (cs : List Candidate) (c : Candidate) (e : SimErr) :
    ((dr.ComputeCommand B cs).error = some e →
      (dr.ComputeCommand B cs).cmd = Command.empty ∧
      (dr.ComputeCommand B cs).results = Results.empty ∧
      ∃ m, e = SimErr.other m) ∧
    (dr.simulate c = .failure .candidateDeleting → c.reschedulablePods ≠ [] →
      (dr.ComputeCommand B [c]).cmd = Command.empty ∧
      (dr.ComputeCommand B [c]).error = none) := by
  constructor
  · simp only [Drift.ComputeCommand, Drift.Reason]
    split
    · intro h; simp at h
    · exact driftLoop_error dr DisruptionReasonDrifted _ _ [] [] e
  · intro hsim hpods
    have hlen : c.reschedulablePods.length > 0 :=
      List.length_pos.mpr hpods
    have hsort1 : sortSliceGo driftLess default [c] = [c] := rfl
    have hsort2 : sortSliceStableGo
        (fun a b => unevictablePods dr a < unevictablePods dr b) default [c] = [c] := rfl
    have hscan : emptyScan DisruptionReasonDrifted B [c] = ([], B) := by
      simp [emptyScan, hlen]
    simp only [Drift.ComputeCommand, Drift.Reason, hsort1, hscan, hsort2]
    simp only [List.length_nil, gt_iff_lt, Nat.lt_irrefl, if_false]
    simp only [driftLoop]
    split
    · exact ⟨rfl, rfl⟩
    · rw [hsim]
      exact ⟨rfl, rfl⟩

/-- C7: whenever the empty-node scan selects nothing (the non-empty,
simulation path), the returned command has at most one candidate — and
exactly one when it is non-empty; conversely a returned command with more
than one candidate is exactly the fast path's empty batch and carries no
replacements. -/
theorem Drift_nonempty_path_single_candidate (dr : Drift) (B : Budget)
    (cs : List Candidate) :
    (((emptyScan DisruptionReasonDrifted B (sortSliceGo driftLess default cs)).1 = [] →
      (dr.ComputeCommand B cs).cmd.candidates.length ≤ 1) ∧
    ((dr.ComputeCommand B cs).cmd.candidates.length > 1 →
      (dr.ComputeCommand B cs).cmd.candidates
        = (emptyScan DisruptionReasonDrifted B (sortSliceGo driftLess default cs)).1 ∧
      (dr.ComputeCommand B cs).cmd.replacements = [])) := by
  simp only [Drift.ComputeCommand, Drift.Reason]
  split
  · next hlen =>
    constructor
    · intro hsel
      rw [hsel] at hlen
      simp at hlen
    · intro _
      exact ⟨rfl, rfl⟩
  · constructor
    · intro _
      exact driftLoop_len_le_one dr DisruptionReasonDrifted _ _ [] []
    · intro hgt
      have := driftLoop_len_le_one dr DisruptionReasonDrifted
        (emptyScan DisruptionReasonDrifted B (sortSliceGo driftLess default cs)).2
        (sortSliceStableGo (fun a b => unevictablePods dr a < unevictablePods dr b)
          default (sortSliceGo driftLess default cs)) [] []
      omega

/-- C2 amended: for at most 12 candidates (where Go's `sort.Slice` takes
the insertion-sort path) the initial sort orders candidates ascending by
drift transition time, is a permutation of the input, and keeps
equal-time candidates in insertion order; with more candidates the order
is still a permutation but ties may be reordered (see the
counterexample). -/
theorem drift_initial_sort_sorted_stable_upto12 (cs : List Candidate)
    (h : cs.length ≤ 12) :
    (sortSliceGo driftLess default cs).Pairwise
      (fun a b => a.driftedLastTransitionTime ≤ b.driftedLastTransitionTime) ∧
    (sortSliceGo driftLess default cs).Perm cs ∧
    ∀ t : Int,
      (sortSliceGo driftLess default cs).filter
          (fun c => c.driftedLastTransitionTime == t)
        = cs.filter (fun c => c.driftedLastTransitionTime == t) := by
  refine ⟨?_, sortSliceGo_perm driftLess default cs, ?_⟩
  · rw [sortSliceGo_insertion driftLess default driftLess_asymm driftLess_neg_trans cs h]
    refine List.Pairwise.imp ?_ (insertionSortL_sorted_drift cs)
    intro a b hab
    simp only [driftLess, decide_eq_false_iff_not] at hab
    omega
  · intro t
    rw [sortSliceGo_insertion driftLess default driftLess_asymm driftLess_neg_trans cs h]
    have := foldl_insertG_filter_time t cs [] (by simp [SortedB])
    simpa [insertionSortL] using this

/-- C6: for every `Command`, `Decision()` is `replace` iff both lists are
non-empty, `delete` iff the candidates are non-empty and the replacements
empty, and `no-op` exactly when the candidates are empty (whatever the
replacements); it is computed from the two lists alone. -/
theorem Command_Decision_characterization (c : Command) :
    (c.Decision = .replace ↔ c.candidates ≠ [] ∧ c.replacements ≠ []) ∧
    (c.Decision = .delete ↔ c.candidates ≠ [] ∧ c.replacements = []) ∧
    (c.Decision = .noop ↔ c.candidates = []) := by
  obtain ⟨cs, rs⟩ := c
  simp only [Command.Decision]
  cases cs <;> cases rs <;> simp

/-- The fixed price 0.042 renders as the literal string `"0.042"`. -/
theorem fmtF3_0042 : fmtF3 ((42 : Rat) / 1000) = "0.042" := by
  have h : round ((42 : Rat) / 1000 * 1000) = (42 : Int) := by
    have h2 : (42 : Rat) / 1000 * 1000 = ((42 : Nat) : Rat) := by norm_num
    rw [h2, round_natCast]
    norm_num
  simp only [fmtF3, h]
  decide

/-- C8: with at least one replacement, the message rendered at candidate
price 0.042 contains the literal substring `"total price of 0.042"`;
with no replacement the message ends with the removal note (for any
price). -/
theorem consolidationMessage_spec (candidates : List Candidate) (results : Results)
    (price : Rat) :
    (results.newNodeClaims ≠ [] →
      ∃ s1 s2, consolidationMessage candidates results ((42 : Rat) / 1000)
        = s1 ++ "total price of 0.042" ++ s2) ∧
    (results.newNodeClaims = [] →
      ∃ s1, consolidationMessage candidates results price
        = s1 ++ " is underutilized and will be removed without replacement") := by
  constructor
  · intro h
    have hlen : results.newNodeClaims.length > 0 := List.length_pos.mpr h
    refine ⟨candidatesPart candidates ++ " with a ",
      " is being replaced" ++ String.join (results.newNodeClaims.map nodeClaimPiece), ?_⟩
    simp only [consolidationMessage, if_pos hlen, fmtF3_0042]
    simp only [String.append_assoc]
    congr 1
  · intro h
    refine ⟨candidatesPart candidates, ?_⟩
    simp [consolidationMessage, h]

/-- C9 counterexample: the nominated-pods annotation value is not the
comma-joined `namespace/name` list: with a single pod `a/b` the written
value is `"a/b,"` (each entry is followed by a comma, leaving a trailing
comma), not `"a/b"`. -/
theorem annotate_nominatedPods_comma_cex :
    ((annotateNodeClaimWithNominatedPods ⟨[], [⟨"a", "b", "u", true, true, false⟩]⟩
        ⟨"nc", "u", none, []⟩).annGet "karpenter.indeed.com/nominated-pods") = "a/b," ∧
    String.intercalate "," ["a/b"] = "a/b" ∧
    ("a/b," : String) ≠ "a/b" := by
  decide

/-- C9 amended: the helper sets the nominated-pods key to the
concatenation of `namespace/name,` for each pod of the scheduling
NodeClaim (trailing comma included), truncated to at most 4096
characters; every other annotation key reads as before, and the
claim's other fields are untouched (the original map value itself is
never mutated — the embedding's update builds a new map). -/
theorem annotate_nominatedPods_spec (n : SchedNodeClaim) (nodeClaim : NodeClaim) :
    ((annotateNodeClaimWithNominatedPods n nodeClaim).annGet
        "karpenter.indeed.com/nominated-pods"
      = (let s := String.join (n.pods.map fun pod => pod.namespc ++ "/" ++ pod.name ++ ",")
         if s.length > 4096 then String.mk (s.data.take 4096) else s)) ∧
    (∀ k, k ≠ "karpenter.indeed.com/nominated-pods" →
      (annotateNodeClaimWithNominatedPods n nodeClaim).annGet k = nodeClaim.annGet k) ∧
    (annotateNodeClaimWithNominatedPods n nodeClaim).name = nodeClaim.name ∧
    (annotateNodeClaimWithNominatedPods n nodeClaim).uid = nodeClaim.uid ∧
    (annotateNodeClaimWithNominatedPods n nodeClaim).requirements
      = nodeClaim.requirements := by
  refine ⟨?_, ?_, rfl, rfl, rfl⟩
  · simp [annotateNodeClaimWithNominatedPods, NodeClaim.annGet]
  · intro k hk
    simp only [annotateNodeClaimWithNominatedPods, NodeClaim.annGet, if_neg hk]
    cases nodeClaim.annotations <;> rfl

/-- Bound the yield of a `filterMap` by the count of a predicate it
implies. -/
theorem length_filterMap_le_countP {α β : Type} (f : α → Option β) (p : α → Bool)
    (l : List α) (h : ∀ a, (f a).isSome → p a = true) :
    (l.filterMap f).length ≤ l.countP p := by
  induction l with
  | nil => simp
  | cons a l ih =>
    rw [List.filterMap_cons, List.countP_cons]
    cases hfa : f a with
    | none =>
      simp only [hfa]
      have := ih
      omega
    | some b =>
      have hpa : p a = true := h a (by simp [hfa])
      simp only [hfa, hpa, List.length_cons]
      have := ih
      simp only [if_true]
      omega

/-- C10: the events list always starts with (and hence contains) the
NodeClaim warning event carrying the truncated error message; it is
exactly that single event unless the nominated-pods annotation is present
and non-empty; and beyond the first event there is at most one event per
well-formed (`namespace/name`, single-slash) annotation entry — malformed
entries yield nothing and nothing fails. -/
theorem InsufficientCapacityErrorEvents_spec (getPod : String → String → GetPodResult)
    (truncateMessage : String → String) (nodeClaim : NodeClaim) (err : String) :
    (InsufficientCapacityErrorEvents getPod truncateMessage nodeClaim err ≠ [] ∧
     (InsufficientCapacityErrorEvents getPod truncateMessage nodeClaim err).head? =
       some { involvedObject := .nodeClaim nodeClaim, type := "Warning"
              reason := "InsufficientCapacityError"
              message := "NodeClaim " ++ nodeClaim.name ++ " event: " ++ truncateMessage err
              dedupeValues := [nodeClaim.uid] }) ∧
    (¬ (nodeClaim.annotations.isSome ∧
        nodeClaim.annGet "karpenter.indeed.com/nominated-pods" ≠ "") →
      (InsufficientCapacityErrorEvents getPod truncateMessage nodeClaim err).length = 1) ∧
    ((InsufficientCapacityErrorEvents getPod truncateMessage nodeClaim err).length ≤
      1 + ((nodeClaim.annGet "karpenter.indeed.com/nominated-pods").splitOn ",").countP
            (fun e => (e.splitOn "/").length == 2)) := by
  simp only [InsufficientCapacityErrorEvents]
  split
  · next hcond =>
    refine ⟨⟨by simp, by simp⟩, fun hn => absurd hcond hn, ?_⟩
    simp only [List.length_append, List.length_cons, List.length_nil]
    have hgoal : ∀ {n m : Nat}, n ≤ m → 0 + 1 + n ≤ 1 + m := by omega
    refine hgoal (length_filterMap_le_countP _ _ _ ?_)
    intro a ha
    by_cases h2 : (a.splitOn "/").length = 2
    · simp [h2]
    · simp [h2] at ha
  · next hcond =>
    exact ⟨⟨by simp, by simp⟩, fun _ => rfl, by simp⟩

/-- C4: when the node validates as disruptable, is not already being
disrupted, resolves its pool and instance-type map, and its
pod-disruptability validation fails with a blocking-pod eviction error,
`NewCandidate` still returns a candidate exactly when the disruption class
is `eventual` and the compute-claim has a termination-grace-period
(no error, no notification then); otherwise no candidate is returned, the
call fails with the pods-not-disruptable error, and a blocked notification
is published. -/
theorem NewCandidate_blocking_pod_downgrade
    (queueHasAny : String → Bool) (nodePoolMap : String → Option NodePool)
    (itMap : String → Option (String → Option String))
    (cost : List Pod → Rat) (lifetime : NodePool → Rat)
    (node : StateNode) (disruptionClass : String) (np : NodePool)
    (itm : String → Option String) (m : String)
    (h1 : node.validateNodeDisruptableErr = none)
    (h2 : queueHasAny node.providerID = false)
    (h3 : nodePoolMap node.nodePoolLabel = some np)
    (h4 : itMap node.nodePoolLabel = some itm)
    (h5 : node.validatePodsErr = some (.podBlockEviction m)) :
    ((NewCandidate queueHasAny nodePoolMap itMap cost lifetime node
        disruptionClass).candidate.isSome
      ↔ (node.terminationGracePeriod.isSome ∧
          disruptionClass = EventualDisruptionClass)) ∧
    (¬ (node.terminationGracePeriod.isSome ∧
        disruptionClass = EventualDisruptionClass) →
      (NewCandidate queueHasAny nodePoolMap itMap cost lifetime node
          disruptionClass).candidate = none ∧
      (NewCandidate queueHasAny nodePoolMap itMap cost lifetime node
          disruptionClass).err
        = some (.podsNotDisruptable (.podBlockEviction m)) ∧
      (NewCandidate queueHasAny nodePoolMap itMap cost lifetime node
          disruptionClass).events = [⟨node.nodeName, node.nodeClaimName, m⟩]) ∧
    ((node.terminationGracePeriod.isSome ∧
        disruptionClass = EventualDisruptionClass) →
      (NewCandidate queueHasAny nodePoolMap itMap cost lifetime node
          disruptionClass).err = none ∧
      (NewCandidate queueHasAny nodePoolMap itMap cost lifetime node
          disruptionClass).events = []) := by
  simp only [NewCandidate, h1, h2, h3, h4, h5]
  by_cases hev : node.terminationGracePeriod.isSome ∧
      disruptionClass = EventualDisruptionClass
  · rw [if_pos hev]
    simp [IgnorePodBlockEvictionError, hev]
  · rw [if_neg hev]
    simp [hev, PodsErr.message]

/-! ## Witnesses: the claim theorems applied at concrete inputs -/

/-- Witness for C1 at three empty candidates of one pool and budget 2:
the hypothesis holds and the fast-path conclusions follow. -/
theorem Drift_ComputeCommand_empty_fast_path_witness :
    (∃ c ∈ fixCandsEmpty3, c.reschedulablePods = [] ∧
      fixBudget2 c.nodePoolName DisruptionReasonDrifted > 0) ∧
    ((fixDrift.ComputeCommand fixBudget2 fixCandsEmpty3).cmd.replacements = [] ∧
    (fixDrift.ComputeCommand fixBudget2 fixCandsEmpty3).simulated = [] ∧
    (fixDrift.ComputeCommand fixBudget2 fixCandsEmpty3).error = none ∧
    (fixDrift.ComputeCommand fixBudget2 fixCandsEmpty3).cmd.candidates ≠ [] ∧
    (∀ c ∈ (fixDrift.ComputeCommand fixBudget2 fixCandsEmpty3).cmd.candidates,
      c.reschedulablePods = []) ∧
    (∀ g, (fixDrift.ComputeCommand fixBudget2 fixCandsEmpty3).cmd.candidates.countP
        (fun c => c.nodePoolName == g) =
      min (fixBudget2 g DisruptionReasonDrifted)
        (fixCandsEmpty3.countP fun c =>
          c.nodePoolName == g && c.reschedulablePods.isEmpty)) ∧
    (∀ g, (fixDrift.ComputeCommand fixBudget2 fixCandsEmpty3).budget g
        DisruptionReasonDrifted =
      fixBudget2 g DisruptionReasonDrifted -
        (fixDrift.ComputeCommand fixBudget2 fixCandsEmpty3).cmd.candidates.countP
          (fun c => c.nodePoolName == g))) :=
  ⟨by decide,
    Drift_ComputeCommand_empty_fast_path fixDrift fixBudget2 fixCandsEmpty3 (by decide)⟩

/-- Witness for the amended C2 at the three-candidate fixture. -/
theorem drift_initial_sort_sorted_stable_upto12_witness :
    fixCandsEmpty3.length ≤ 12 ∧
    ((sortSliceGo driftLess default fixCandsEmpty3).Pairwise
      (fun a b => a.driftedLastTransitionTime ≤ b.driftedLastTransitionTime) ∧
    (sortSliceGo driftLess default fixCandsEmpty3).Perm fixCandsEmpty3 ∧
    ∀ t : Int,
      (sortSliceGo driftLess default fixCandsEmpty3).filter
          (fun c => c.driftedLastTransitionTime == t)
        = fixCandsEmpty3.filter (fun c => c.driftedLastTransitionTime == t)) :=
  ⟨by decide, drift_initial_sort_sorted_stable_upto12 fixCandsEmpty3 (by decide)⟩

/-- Witness for the amended C3 at one committed non-empty candidate and a
reason other than drift. -/
theorem Drift_budget_accounting_witness :
    ("Underutilized" ≠ DisruptionReasonDrifted) ∧
    (((fixDrift.ComputeCommand fixBudget [fixCand "n1" 0 [fixPod]]).budget "pool"
        DisruptionReasonDrifted =
      fixBudget "pool" DisruptionReasonDrifted -
        (fixDrift.ComputeCommand fixBudget
          [fixCand "n1" 0 [fixPod]]).cmd.candidates.countP
          (fun c => c.nodePoolName == "pool" && c.reschedulablePods.isEmpty)) ∧
    (fixDrift.ComputeCommand fixBudget [fixCand "n1" 0 [fixPod]]).budget "pool"
        "Underutilized" = fixBudget "pool" "Underutilized") :=
  ⟨by decide,
    Drift_budget_accounting fixDrift fixBudget [fixCand "n1" 0 [fixPod]] "pool"
      "Underutilized" (by decide)⟩

/-- Witness for C5: a fatal simulation error aborts with the zero command,
and a concurrently-deleting candidate is skipped into a no-op. -/
theorem Drift_simulation_error_handling_witness :
    ((fixDriftErr.ComputeCommand fixBudget [fixCand "n1" 0 [fixPod]]).error
        = some (.other "simulation broke") ∧
      ((fixDriftErr.ComputeCommand fixBudget [fixCand "n1" 0 [fixPod]]).cmd
          = Command.empty ∧
        (fixDriftErr.ComputeCommand fixBudget [fixCand "n1" 0 [fixPod]]).results
          = Results.empty ∧
        ∃ m, SimErr.other "simulation broke" = SimErr.other m)) ∧
    (fixDriftDel.simulate (fixCand "n1" 0 [fixPod]) = .failure .candidateDeleting ∧
      (fixCand "n1" 0 [fixPod]).reschedulablePods ≠ [] ∧
      ((fixDriftDel.ComputeCommand fixBudget [fixCand "n1" 0 [fixPod]]).cmd
          = Command.empty ∧
        (fixDriftDel.ComputeCommand fixBudget [fixCand "n1" 0 [fixPod]]).error = none)) :=
  ⟨⟨by decide,
    (Drift_simulation_error_handling fixDriftErr fixBudget [fixCand "n1" 0 [fixPod]]
      (fixCand "n1" 0 [fixPod]) (.other "simulation broke")).1 (by decide)⟩,
   by decide, by decide,
   (Drift_simulation_error_handling fixDriftDel fixBudget [fixCand "n1" 0 [fixPod]]
      (fixCand "n1" 0 [fixPod]) (.other "x")).2 (by decide) (by decide)⟩

/-- Witness for C7 at a single non-empty candidate: the scan selects
nothing and the command has at most one candidate. -/
theorem Drift_nonempty_path_single_candidate_witness :
    ((emptyScan DisruptionReasonDrifted fixBudget
        (sortSliceGo driftLess default [fixCand "n1" 0 [fixPod]])).1 = []) ∧
    (fixDrift.ComputeCommand fixBudget
      [fixCand "n1" 0 [fixPod]]).cmd.candidates.length ≤ 1 :=
  ⟨by decide,
    (Drift_nonempty_path_single_candidate fixDrift fixBudget
      [fixCand "n1" 0 [fixPod]]).1 (by decide)⟩

/-- Witness for C4 at a concrete node with a blocking-pod failure under
the graceful class: no candidate, the error and the notification. -/
theorem NewCandidate_blocking_pod_downgrade_witness :
    ((fixNode none).validateNodeDisruptableErr = none ∧
      (fun _ : String => false) (fixNode none).providerID = false ∧
      (fun s => if s = "pool" then some (⟨"pool"⟩ : NodePool) else none)
        (fixNode none).nodePoolLabel = some ⟨"pool"⟩ ∧
      (fun s => if s = "pool" then some (fun _ : String => (none : Option String))
        else none) (fixNode none).nodePoolLabel
        = some (fun _ : String => (none : Option String)) ∧
      (fixNode none).validatePodsErr = some (.podBlockEviction "pdb blocks")) ∧
    (¬ ((fixNode none).terminationGracePeriod.isSome ∧
        GracefulDisruptionClass = EventualDisruptionClass)) ∧
    ((NewCandidate (fun _ => false)
        (fun s => if s = "pool" then some (⟨"pool"⟩ : NodePool) else none)
        (fun s => if s = "pool" then some (fun _ : String => (none : Option String))
          else none)
        (fun _ => 0) (fun _ => 0) (fixNode none) GracefulDisruptionClass).candidate
        = none ∧
      (NewCandidate (fun _ => false)
        (fun s => if s = "pool" then some (⟨"pool"⟩ : NodePool) else none)
        (fun s => if s = "pool" then some (fun _ : String => (none : Option String))
          else none)
        (fun _ => 0) (fun _ => 0) (fixNode none) GracefulDisruptionClass).err
        = some (.podsNotDisruptable (.podBlockEviction "pdb blocks")) ∧
      (NewCandidate (fun _ => false)
        (fun s => if s = "pool" then some (⟨"pool"⟩ : NodePool) else none)
        (fun s => if s = "pool" then some (fun _ : String => (none : Option String))
          else none)
        (fun _ => 0) (fun _ => 0) (fixNode none) GracefulDisruptionClass).events
        = [⟨(fixNode none).nodeName, (fixNode none).nodeClaimName, "pdb blocks"⟩]) :=
  ⟨⟨rfl, rfl, rfl, rfl, rfl⟩, by decide,
    (NewCandidate_blocking_pod_downgrade (fun _ => false)
      (fun s => if s = "pool" then some (⟨"pool"⟩ : NodePool) else none)
      (fun s => if s = "pool" then some (fun _ : String => (none : Option String))
        else none)
      (fun _ => 0) (fun _ => 0) (fixNode none) GracefulDisruptionClass ⟨"pool"⟩
      (fun _ => none) "pdb blocks" rfl rfl rfl rfl rfl).2.1 (by decide)⟩

/-- Witness for C8 at one replacement / no replacement. -/
theorem consolidationMessage_spec_witness :
    (fixResults1.newNodeClaims ≠ [] ∧
      ∃ s1 s2, consolidationMessage [] fixResults1 ((42 : Rat) / 1000)
        = s1 ++ "total price of 0.042" ++ s2) ∧
    (fixResults0.newNodeClaims = [] ∧
      ∃ s1, consolidationMessage [] fixResults0 ((42 : Rat) / 1000)
        = s1 ++ " is underutilized and will be removed without replacement") :=
  ⟨⟨by decide, (consolidationMessage_spec [] fixResults1 ((42 : Rat) / 1000)).1
      (by decide)⟩,
   ⟨rfl, (consolidationMessage_spec [] fixResults0 ((42 : Rat) / 1000)).2 rfl⟩⟩

/-- Witness for the amended C9: a foreign annotation key reads unchanged
after the helper runs. -/
theorem annotate_nominatedPods_spec_witness :
    ("other" ≠ "karpenter.indeed.com/nominated-pods") ∧
    (annotateNodeClaimWithNominatedPods ⟨[], [⟨"a", "b", "u", true, true, false⟩]⟩
        fixNodeClaim).annGet "other" = fixNodeClaim.annGet "other" :=
  ⟨by decide,
    (annotate_nominatedPods_spec ⟨[], [⟨"a", "b", "u", true, true, false⟩]⟩
      fixNodeClaim).2.1 "other" (by decide)⟩

/-- Witness for C10 at a NodeClaim with a nil annotation map: exactly the
single NodeClaim event. -/
theorem InsufficientCapacityErrorEvents_spec_witness :
    (¬ (fixNodeClaim.annotations.isSome ∧
        fixNodeClaim.annGet "karpenter.indeed.com/nominated-pods" ≠ "")) ∧
    (InsufficientCapacityErrorEvents fixGetPod (fun s => s) fixNodeClaim
      "out of capacity").length = 1 :=
  ⟨by decide,
    (InsufficientCapacityErrorEvents_spec fixGetPod (fun s => s) fixNodeClaim
      "out of capacity").2.1 (by decide)⟩

end Karpenter
